import Mathlib

/-!
# crustls demo client (`src/main.c`): a shallow embedding

The POSIX build of `main.c` is embedded (the `#else` branches of the
`_WIN32` switches).  Every call that leaves the program (a system call or a
call into the TLS library) is answered by an *oracle*: a field of `Sys σ`,
a transition function over an arbitrary world state `σ`.  A statement that
quantifies over `σ` and `Sys σ` therefore speaks about every behaviour of the
socket, of standard output and of the TLS engine.

Every embedded function with a loop returns a `Run`: the value returned
(`none` when the iteration budget `fuel` of a loop was used up before the
function returned), the world afterwards, and the list of external calls it
made, in order.  Functions without a loop return a `Done`, which always has a
value.  Diagnostics written to standard error are not part of the trace.
-/

namespace Crustls

/-- A C `char` / `uint8_t`. -/
abbrev Byte := Nat

/-- External calls, with their arguments and what came back. -/
inductive Event where
  | getenv (name : String) (present : Bool)
  | config_builder_new
  | load_native_roots (result : Int)
  | set_certificate_verifier
  | config_builder_build
  | config_free
  | getaddrinfo (hostname : List Byte) (ret : Int)
  | freeaddrinfo
  | socket (ret : Int)
  | connect (fd : Int) (ret : Int)
  | fcntl_getfl (fd : Int) (ret : Int)
  | fcntl_setfl (fd : Int) (flags : Int) (ret : Int)
  | read (fd : Int) (count : Nat) (ret : Int)
  | write (fd : Int) (offered : List Byte) (ret : Int)
  | select (nfds : Int) (read_fds write_fds : Bool) (ret : Int)
  | close (fd : Int)
  | session_new (hostname : List Byte) (result : Int)
  | session_free (null : Bool)
  | wants_read (b : Bool)
  | wants_write (b : Bool)
  | read_tls (offered : List Byte) (result : Int) (n : Nat)
  | process_new_packets (result : Int)
  | session_read (count : Nat) (result : Int) (n : Nat)
  | session_write (offered : List Byte) (result : Int) (n : Nat)
  | write_tls (count : Nat) (result : Int) (n : Nat)
  deriving DecidableEq, Repr

/-- The two enumerators of `rustls_result` that `main.c` names.  Their header,
`crustls.h`, is generated at build time and is not part of the sources, so the
values are parameters. -/
structure crustls_h where
  RUSTLS_RESULT_OK : Int
  RUSTLS_RESULT_ALERT_CLOSE_NOTIFY : Int

/-- The world outside the program.  Each field is one external function of
`main.c`; it receives the world and the arguments and returns the results and
the next world.
* `getaddrinfo` returns its result and whether `getaddrinfo_output` is
  non-NULL afterwards;
* `read` returns the count, whether `errno` is `EAGAIN` or `EWOULDBLOCK`
  afterwards, and the bytes stored into the buffer;
* `select` is called with the socket in both sets; it returns its result and
  whether the socket is still in the read set and in the write set;
* the engine verbs return the `rustls_result`, the out-parameter `n`, and
  (for the two verbs that fill a buffer) the bytes stored. -/
structure Sys (σ : Type) where
  getenv : σ → String → Option (List Byte)
  load_native_roots : σ → Int × σ
  getaddrinfo : σ → List Byte → (Int × Bool) × σ
  socket : σ → Int × σ
  connect : σ → Int → Int × σ
  fcntl_getfl : σ → Int → Int × σ
  fcntl_setfl : σ → Int → Int → Int × σ
  read : σ → Int → Nat → (Int × Bool × List Byte) × σ
  write : σ → Int → List Byte → Int × σ
  select : σ → Int → (Int × Bool × Bool) × σ
  close : σ → Int → σ
  session_new : σ → List Byte → Int × σ
  session_free : σ → Bool → σ
  wants_read : σ → Bool × σ
  wants_write : σ → Bool × σ
  read_tls : σ → List Byte → (Int × Nat) × σ
  process_new_packets : σ → Int × σ
  session_read : σ → Nat → (Int × Nat × List Byte) × σ
  session_write : σ → List Byte → (Int × Nat) × σ
  write_tls : σ → Nat → (Int × Nat × List Byte) × σ

/-- What a call did: `ret = none` means a loop budget ran out first. -/
structure Run (σ α : Type) where
  ret : Option α
  w : σ
  tr : List Event

/-! ## `enum crustls_demo_result` -/

def CRUSTLS_DEMO_OK : Int := 0
def CRUSTLS_DEMO_ERROR : Int := 1
def CRUSTLS_DEMO_AGAIN : Int := 2
def CRUSTLS_DEMO_EOF : Int := 3
def CRUSTLS_DEMO_CLOSE_NOTIFY : Int := 4

def STDOUT_FILENO : Int := 1

/-- Linux value of `O_NONBLOCK` (a system header constant). -/
def O_NONBLOCK : Nat := 2048

/-! ## Buffers -/

/-- The array after `bzero(buf, sizeof(buf))`. -/
def bzero (size : Nat) : List Byte := List.replicate size 0

/-- The array `buf` after a callee stored `data` at its start: the bytes of
`data` over those of `buf`, as far as `buf` reaches. -/
def store : List Byte → List Byte → List Byte
  | [], _ => []
  | b :: buf, [] => b :: buf
  | _ :: buf, d :: data => d :: store buf data

/-- Conversion of a `size_t` to `int` at a call (two's complement, 32 bit). -/
def int_of_size_t (n : Nat) : Int :=
  if n % 2 ^ 32 < 2 ^ 31 then ((n % 2 ^ 32 : Nat) : Int) else ((n % 2 ^ 32 : Nat) : Int) - 2 ^ 32

/-! ## `write_all` (lines 87-109) -/

/-- The `while(n > 0)` loop of `write_all`.  The pointer `buf` is the same in
every pass: the call offers the first `n` bytes of `buf`, with the current
`n`. -/
def write_all_loop {σ : Type} (sys : Sys σ) (fd : Int) (buf : List Byte) :
    Nat → σ → Int → Run σ Int
  | 0, w, _ => ⟨none, w, []⟩
  | fuel + 1, w, n =>
    if n > 0 then
      let r := sys.write w fd (buf.take n.toNat)
      let m := r.1
      let e := Event.write fd (buf.take n.toNat) m
      if m < 0 then ⟨some 1, r.2, [e]⟩
      else if m = 0 then ⟨some 1, r.2, [e]⟩
      else
        let k := write_all_loop sys fd buf fuel r.2 (n - m)
        ⟨k.ret, k.w, e :: k.tr⟩
    else ⟨some 0, w, []⟩

/-- The function `write_all(fd, buf, n)`.  Every pass that does not return
lowers `n` by at least one, so `n` passes and the final test suffice. -/
def write_all {σ : Type} (sys : Sys σ) (w : σ) (fd : Int) (buf : List Byte) (n : Int) :
    Run σ Int :=
  write_all_loop sys fd buf (n.toNat + 1) w n

/-! ## `nonblock` and `make_conn` (lines 116-195) -/

/-- What a call without a loop did. -/
structure Done (σ α : Type) where
  val : α
  w : σ
  tr : List Event

/-- The function `nonblock(sockfd)`, POSIX branch. -/
def nonblock {σ : Type} (sys : Sys σ) (w : σ) (sockfd : Int) : Done σ Int :=
  let g := sys.fcntl_getfl w sockfd
  let flags := g.1
  let e1 := Event.fcntl_getfl sockfd flags
  if flags < 0 then ⟨CRUSTLS_DEMO_ERROR, g.2, [e1]⟩
  else
    let arg : Int := ((flags.toNat ||| O_NONBLOCK : Nat) : Int)
    let s := sys.fcntl_setfl g.2 sockfd arg
    let e2 := Event.fcntl_setfl sockfd arg s.1
    if s.1 < 0 then ⟨CRUSTLS_DEMO_ERROR, s.2, [e1, e2]⟩
    else ⟨CRUSTLS_DEMO_OK, s.2, [e1, e2]⟩

/-- The label `cleanup:` of `make_conn`, reached with the trace `tr` so far:
free the address list if there is one, close `sockfd` if it is positive,
return -1. -/
def make_conn_cleanup {σ : Type} (sys : Sys σ) (w : σ) (output_nonnull : Bool) (sockfd : Int)
    (tr : List Event) : Done σ Int :=
  let tr1 := if output_nonnull then tr ++ [Event.freeaddrinfo] else tr
  if sockfd > 0 then ⟨-1, sys.close w sockfd, tr1 ++ [Event.close sockfd]⟩
  else ⟨-1, w, tr1⟩

/-- The function `make_conn(hostname)`. -/
def make_conn {σ : Type} (sys : Sys σ) (w : σ) (hostname : List Byte) : Done σ Int :=
  let g := sys.getaddrinfo w hostname
  let getaddrinfo_result := g.1.1
  let output_nonnull := g.1.2
  let e0 := Event.getaddrinfo hostname getaddrinfo_result
  if getaddrinfo_result ≠ 0 then make_conn_cleanup sys g.2 output_nonnull 0 [e0]
  else
    let s := sys.socket g.2
    let sockfd := s.1
    let e1 := Event.socket sockfd
    if sockfd < 0 then make_conn_cleanup sys s.2 output_nonnull sockfd [e0, e1]
    else
      let c := sys.connect s.2 sockfd
      let e2 := Event.connect sockfd c.1
      if c.1 < 0 then make_conn_cleanup sys c.2 output_nonnull sockfd [e0, e1, e2]
      else
        let nb := nonblock sys c.2 sockfd
        if nb.val ≠ CRUSTLS_DEMO_OK then ⟨1, nb.w, e0 :: e1 :: e2 :: nb.tr⟩
        else ⟨sockfd, nb.w, e0 :: e1 :: e2 :: (nb.tr ++ [Event.freeaddrinfo])⟩

/-! ## `copy_tls_bytes_into_client_session` (lines 201-239) -/

/-- The `while(n_written < len)` loop.  The value is `(return value, *out_n)`.
The engine is offered `buf + n_written`, `len - n_written`.  `n_written` stays
below `2 * len`, so the `size_t` addition does not wrap for any `len` a 2 KiB
buffer allows. -/
def copy_tls_loop {σ : Type} (K : crustls_h) (sys : Sys σ) (buf : List Byte) (len : Nat) :
    Nat → σ → Nat → Run σ (Int × Nat)
  | 0, w, _ => ⟨none, w, []⟩
  | fuel + 1, w, n_written =>
    if n_written < len then
      let offered := (buf.drop n_written).take (len - n_written)
      let r := sys.read_tls w offered
      let result := r.1.1
      let n := r.1.2
      let e := Event.read_tls offered result n
      if result ≠ K.RUSTLS_RESULT_OK then ⟨some (1, n_written), r.2, [e]⟩
      else if n = 0 then ⟨some (1, n_written), r.2, [e]⟩
      else if n > len then ⟨some (1, n_written), r.2, [e]⟩
      else
        let p := sys.process_new_packets r.2
        let e2 := Event.process_new_packets p.1
        if p.1 ≠ K.RUSTLS_RESULT_OK then ⟨some (1, n_written + n), p.2, [e, e2]⟩
        else
          let k := copy_tls_loop K sys buf len fuel p.2 (n_written + n)
          ⟨k.ret, k.w, e :: e2 :: k.tr⟩
    else ⟨some (0, n_written), w, []⟩

/-- The function `copy_tls_bytes_into_client_session(session, buf, len, out_n)`.
Every pass that does not return raises `n_written` by at least one. -/
def copy_tls_bytes_into_client_session {σ : Type} (K : crustls_h) (sys : Sys σ) (w : σ)
    (buf : List Byte) (len : Nat) : Run σ (Int × Nat) :=
  copy_tls_loop K sys buf len (len + 1) w 0

/-! ## `copy_plaintext_to_stdout` (lines 249-281) -/

/-- The function `copy_plaintext_to_stdout(session)`: one pass of its
`for(;;)` per unit of `fuel`. -/
def copy_plaintext_to_stdout {σ : Type} (K : crustls_h) (sys : Sys σ) : Nat → σ → Run σ Int
  | 0, w => ⟨none, w, []⟩
  | fuel + 1, w =>
    let r := sys.session_read w 2048
    let result := r.1.1
    let n := r.1.2.1
    let buf := store (bzero 2048) r.1.2.2
    let e := Event.session_read 2048 result n
    if result = K.RUSTLS_RESULT_ALERT_CLOSE_NOTIFY then ⟨some CRUSTLS_DEMO_CLOSE_NOTIFY, r.2, [e]⟩
    else if result ≠ K.RUSTLS_RESULT_OK then ⟨some CRUSTLS_DEMO_ERROR, r.2, [e]⟩
    else if n = 0 then ⟨some CRUSTLS_DEMO_OK, r.2, [e]⟩
    else
      let wa := write_all sys r.2 STDOUT_FILENO buf (int_of_size_t n)
      match wa.ret with
      | none => ⟨none, wa.w, e :: wa.tr⟩
      | some res =>
        if res ≠ 0 then ⟨some CRUSTLS_DEMO_ERROR, wa.w, e :: wa.tr⟩
        else
          let k := copy_plaintext_to_stdout K sys fuel wa.w
          ⟨k.ret, k.w, e :: (wa.tr ++ k.tr)⟩

/-! ## `do_read` (lines 293-347) -/

/-- The function `do_read(sockfd, session)`; `fuel` bounds the plaintext
loop it calls. -/
def do_read {σ : Type} (K : crustls_h) (sys : Sys σ) (fuel : Nat) (w : σ) (sockfd : Int) :
    Run σ Int :=
  let r := sys.read w sockfd 2048
  let n := r.1.1
  let e := Event.read sockfd 2048 n
  if n = 0 then ⟨some CRUSTLS_DEMO_EOF, r.2, [e]⟩
  else if n < 0 then
    if r.1.2.1 then ⟨some CRUSTLS_DEMO_AGAIN, r.2, [e]⟩
    else ⟨some CRUSTLS_DEMO_ERROR, r.2, [e]⟩
  else
    let buf := store (bzero 2048) r.1.2.2
    let buflen := n.toNat
    let c := copy_tls_bytes_into_client_session K sys r.2 buf buflen
    match c.ret with
    | none => ⟨none, c.w, e :: c.tr⟩
    | some (result, _) =>
      if result ≠ 0 then ⟨some CRUSTLS_DEMO_ERROR, c.w, e :: c.tr⟩
      else
        let p := copy_plaintext_to_stdout K sys fuel c.w
        match p.ret with
        | none => ⟨none, p.w, e :: (c.tr ++ p.tr)⟩
        | some result =>
          if result ≠ CRUSTLS_DEMO_CLOSE_NOTIFY then ⟨some result, p.w, e :: (c.tr ++ p.tr)⟩
          else
            let r2 := sys.read p.w sockfd 2048
            let e2 := Event.read sockfd 2048 r2.1.1
            if r2.1.1 ≠ 0 then ⟨some CRUSTLS_DEMO_ERROR, r2.2, e :: (c.tr ++ p.tr ++ [e2])⟩
            else ⟨some CRUSTLS_DEMO_CLOSE_NOTIFY, r2.2, e :: (c.tr ++ p.tr ++ [e2])⟩

/-! ## `send_request_and_read_response` (lines 354-451) -/

/-- The bytes of a string literal of the source. -/
def str (s : String) : List Byte := s.toList.map Char.toNat

/-- The string a `const char *` denotes: the bytes before the first NUL. -/
def c_str (p : List Byte) : List Byte := p.takeWhile (fun b => b ≠ 0)

/-- The C function `strlen` on an array. -/
def strlen (buf : List Byte) : Nat := (c_str buf).length

/-- The expansion of the format of line 369 with `path` and `hostname`. -/
def request_text (path hostname : List Byte) : List Byte :=
  str "GET " ++ c_str path ++ str " HTTP/1.1\r\nHost: " ++ c_str hostname ++
    str "\r\nUser-Agent: crustls-demo\r\nAccept: carcinization/inevitable, text/html\r\nConnection: close\r\n\r\n"

/-- The array `buf` after `snprintf(buf, size, ...)` produced `out`: at most
`size - 1` bytes of it and a terminating NUL. -/
def snprintf (buf : List Byte) (size : Nat) (out : List Byte) : List Byte :=
  store buf (out.take (size - 1) ++ [0])

/-- Where control goes after a block of the driver loop. -/
inductive Jump where
  | fallthrough
  | cleanup (ret : Int)
  deriving DecidableEq, Repr

/-- The inner `for(;;)` of lines 408-420: `do_read` until it reports
would-block (`break`) or the exchange ends (`goto cleanup` with the current
`ret`, which is 0 after a close_notify and 1 otherwise). -/
def read_phase {σ : Type} (K : crustls_h) (sys : Sys σ) (sockfd : Int) : Nat → σ → Run σ Jump
  | 0, w => ⟨none, w, []⟩
  | fuel + 1, w =>
    let d := do_read K sys fuel w sockfd
    match d.ret with
    | none => ⟨none, d.w, d.tr⟩
    | some result =>
      if result = CRUSTLS_DEMO_AGAIN then ⟨some Jump.fallthrough, d.w, d.tr⟩
      else if result = CRUSTLS_DEMO_CLOSE_NOTIFY then ⟨some (Jump.cleanup 0), d.w, d.tr⟩
      else if result ≠ CRUSTLS_DEMO_OK then ⟨some (Jump.cleanup 1), d.w, d.tr⟩
      else
        let k := read_phase K sys sockfd fuel d.w
        ⟨k.ret, k.w, d.tr ++ k.tr⟩

/-- The body of the `if` of lines 422-441, entered when the session wants to
write and the socket is writable. -/
def write_phase {σ : Type} (K : crustls_h) (sys : Sys σ) (w : σ) (sockfd : Int) : Run σ Jump :=
  let r := sys.write_tls w 2048
  let result := r.1.1
  let n := r.1.2.1
  let buf := store (bzero 2048) r.1.2.2
  let e := Event.write_tls 2048 result n
  if result ≠ K.RUSTLS_RESULT_OK then ⟨some (Jump.cleanup 1), r.2, [e]⟩
  else if n = 0 then ⟨some (Jump.cleanup 1), r.2, [e]⟩
  else
    let wa := write_all sys r.2 sockfd buf (int_of_size_t n)
    match wa.ret with
    | none => ⟨none, wa.w, e :: wa.tr⟩
    | some res =>
      if res ≠ 0 then ⟨some (Jump.cleanup 1), wa.w, e :: wa.tr⟩
      else ⟨some Jump.fallthrough, wa.w, e :: wa.tr⟩

/-- One pass of the outer `for(;;)` of lines 388-442. -/
def driver_pass {σ : Type} (K : crustls_h) (sys : Sys σ) (fuel : Nat) (w : σ) (sockfd : Int) :
    Run σ Jump :=
  let s := sys.select w (sockfd + 1)
  let result := s.1.1
  let e := Event.select (sockfd + 1) true true result
  if result = -1 then ⟨some (Jump.cleanup 1), s.2, [e]⟩
  else
    let q := sys.wants_read s.2
    let e1 := Event.wants_read q.1
    let rp : Run σ Jump :=
      if q.1 && s.1.2.1 then read_phase K sys sockfd fuel q.2
      else ⟨some Jump.fallthrough, q.2, []⟩
    match rp.ret with
    | none => ⟨none, rp.w, e :: e1 :: rp.tr⟩
    | some (Jump.cleanup ret) => ⟨some (Jump.cleanup ret), rp.w, e :: e1 :: rp.tr⟩
    | some Jump.fallthrough =>
      let q2 := sys.wants_write rp.w
      let e2 := Event.wants_write q2.1
      if q2.1 && s.1.2.2 then
        let wp := write_phase K sys q2.2 sockfd
        ⟨wp.ret, wp.w, e :: e1 :: (rp.tr ++ e2 :: wp.tr)⟩
      else ⟨some Jump.fallthrough, q2.2, e :: e1 :: (rp.tr ++ [e2])⟩

/-- The outer `for(;;)`: passes until one jumps to `cleanup`; the value is
`ret` at the label. -/
def driver_loop {σ : Type} (K : crustls_h) (sys : Sys σ) (sockfd : Int) : Nat → σ → Run σ Int
  | 0, w => ⟨none, w, []⟩
  | fuel + 1, w =>
    let p := driver_pass K sys fuel w sockfd
    match p.ret with
    | none => ⟨none, p.w, p.tr⟩
    | some (Jump.cleanup ret) => ⟨some ret, p.w, p.tr⟩
    | some Jump.fallthrough =>
      let k := driver_loop K sys sockfd fuel p.w
      ⟨k.ret, k.w, p.tr ++ k.tr⟩

/-- Lines 366-442: the function up to its label `cleanup:`. -/
def send_request_body {σ : Type} (K : crustls_h) (sys : Sys σ) (fuel : Nat) (w : σ)
    (sockfd : Int) (hostname path : List Byte) : Run σ Int :=
  let buf := snprintf (bzero 2048) 2048 (request_text path hostname)
  let offered := buf.take (strlen buf)
  let r := sys.session_write w offered
  let result := r.1.1
  let n := r.1.2
  let e := Event.session_write offered result n
  if result ≠ K.RUSTLS_RESULT_OK then ⟨some 1, r.2, [e]⟩
  else if n ≠ strlen buf then ⟨some 1, r.2, [e]⟩
  else
    let d := driver_loop K sys sockfd fuel r.2
    ⟨d.ret, d.w, e :: d.tr⟩

/-- The function `send_request_and_read_response(sockfd, session, hostname, path)`:
the body, then `cleanup:` closes a positive `sockfd` and returns `ret`. -/
def send_request_and_read_response {σ : Type} (K : crustls_h) (sys : Sys σ) (fuel : Nat)
    (w : σ) (sockfd : Int) (hostname path : List Byte) : Run σ Int :=
  let b := send_request_body K sys fuel w sockfd hostname path
  match b.ret with
  | none => b
  | some ret =>
    if sockfd > 0 then ⟨some ret, sys.close b.w sockfd, b.tr ++ [Event.close sockfd]⟩
    else ⟨some ret, b.w, b.tr⟩

/-! ## `do_request` (lines 453-485) -/

/-- The label `cleanup:` of `do_request`: free the session (`null` tells
whether the handle is still NULL), close a positive `sockfd`, return `ret`. -/
def do_request_cleanup {σ : Type} (sys : Sys σ) (w : σ) (null : Bool) (sockfd ret : Int)
    (tr : List Event) : Run σ Int :=
  let w1 := sys.session_free w null
  let tr1 := tr ++ [Event.session_free null]
  if sockfd > 0 then ⟨some ret, sys.close w1 sockfd, tr1 ++ [Event.close sockfd]⟩
  else ⟨some ret, w1, tr1⟩

/-- The function `do_request(config, hostname, path)`. -/
def do_request {σ : Type} (K : crustls_h) (sys : Sys σ) (fuel : Nat) (w : σ)
    (hostname path : List Byte) : Run σ Int :=
  let mc := make_conn sys w hostname
  let sockfd := mc.val
  if sockfd < 0 then do_request_cleanup sys mc.w true sockfd 1 mc.tr
  else
    let sn := sys.session_new mc.w hostname
    let e := Event.session_new hostname sn.1
    if sn.1 ≠ K.RUSTLS_RESULT_OK then do_request_cleanup sys sn.2 true sockfd 1 (mc.tr ++ [e])
    else
      let d := send_request_and_read_response K sys fuel sn.2 sockfd hostname path
      match d.ret with
      | none => ⟨none, d.w, mc.tr ++ e :: d.tr⟩
      | some ret =>
        if ret ≠ K.RUSTLS_RESULT_OK then
          do_request_cleanup sys d.w false sockfd ret (mc.tr ++ e :: d.tr)
        else do_request_cleanup sys d.w false sockfd 0 (mc.tr ++ e :: d.tr)

/-! ## `main` (lines 512-570) -/

/-- The `for(i = 0; i < 3; i++)` loop of `main` with `left = 3 - i` passes to
go; the value is `ret` at the label `cleanup:`. -/
def main_loop {σ : Type} (K : crustls_h) (sys : Sys σ) (fuel : Nat) (hostname path : List Byte) :
    Nat → σ → Run σ Int
  | 0, w => ⟨some 0, w, []⟩
  | left + 1, w =>
    let d := do_request K sys fuel w hostname path
    match d.ret with
    | none => ⟨none, d.w, d.tr⟩
    | some result =>
      if result ≠ 0 then ⟨some 1, d.w, d.tr⟩
      else
        let k := main_loop K sys fuel hostname path left d.w
        ⟨k.ret, k.w, d.tr ++ k.tr⟩

/-- Lines 528-549 of `main`: the configuration, up to and including
`rustls_client_config_builder_build`.  The value is the result of loading the
trust roots; when it is not OK nothing after the load is done. -/
def main_config {σ : Type} (K : crustls_h) (sys : Sys σ) (w : σ) : Done σ Int :=
  let l := sys.load_native_roots w
  let e1 := Event.load_native_roots l.1
  if l.1 ≠ K.RUSTLS_RESULT_OK then ⟨l.1, l.2, [Event.config_builder_new, e1]⟩
  else
    let present := (sys.getenv l.2 "NO_CHECK_CERTIFICATE").isSome
    let e2 := Event.getenv "NO_CHECK_CERTIFICATE" present
    if present then
      ⟨l.1, l.2, [Event.config_builder_new, e1, e2, Event.set_certificate_verifier,
        Event.config_builder_build]⟩
    else ⟨l.1, l.2, [Event.config_builder_new, e1, e2, Event.config_builder_build]⟩

/-- The function `main(argc, argv)` with `argc = argv.length`. -/
def main {σ : Type} (K : crustls_h) (sys : Sys σ) (fuel : Nat) (w : σ)
    (argv : List (List Byte)) : Run σ Int :=
  if argv.length ≤ 2 then ⟨some 1, w, []⟩
  else
    let hostname := argv.getD 1 []
    let path := argv.getD 2 []
    let c := main_config K sys w
    if c.val ≠ K.RUSTLS_RESULT_OK then ⟨some 1, c.w, c.tr ++ [Event.config_free]⟩
    else
      let k := main_loop K sys fuel hostname path 3 c.w
      match k.ret with
      | none => ⟨none, k.w, c.tr ++ k.tr⟩
      | some ret => ⟨some ret, k.w, c.tr ++ k.tr ++ [Event.config_free]⟩

/-! ## Reading traces -/

/-- The bytes the successive `write` calls of a trace accepted, in order: a
call that returned `m > 0` accepted the first `m` bytes it was offered. -/
def accepted_by_write : List Event → List Byte
  | [] => []
  | Event.write _ offered m :: t =>
    (if m > 0 then offered.take m.toNat else []) ++ accepted_by_write t
  | _ :: t => accepted_by_write t

/-- The bytes the successive `read_tls` calls of a trace accepted, in order. -/
def accepted_by_read_tls : List Event → List Byte
  | [] => []
  | Event.read_tls offered _ n :: t => offered.take n ++ accepted_by_read_tls t
  | _ :: t => accepted_by_read_tls t

/-- Every `read_tls` call of the trace is offered `data` from offset `k` on,
where `k` starts at the given offset and grows by each accepted count. -/
def fed_in_order (data : List Byte) : Nat → List Event → Prop
  | _, [] => True
  | k, Event.read_tls offered _ n :: t => offered = data.drop k ∧ fed_in_order data (k + n) t
  | k, _ :: t => fed_in_order data k t

/-- A `rustls_client_session_read` that reported close_notify. -/
def Event.is_close_notify (K : crustls_h) : Event → Bool
  | Event.session_read _ result _ => result == K.RUSTLS_RESULT_ALERT_CLOSE_NOTIFY
  | _ => false

/-- A socket `read` that returned zero. -/
def Event.is_zero_read : Event → Bool
  | Event.read _ _ n => n == 0
  | _ => false

/-- A call the driver loop can make: `select` with the socket in both sets,
the two readiness queries, and the calls of the read and write phases. -/
def Event.is_exchange : Event → Bool
  | Event.read _ _ _ => true
  | Event.write _ _ _ => true
  | Event.select _ read_fds write_fds _ => read_fds && write_fds
  | Event.wants_read _ => true
  | Event.wants_write _ => true
  | Event.read_tls _ _ _ => true
  | Event.process_new_packets _ => true
  | Event.session_read _ _ _ => true
  | Event.write_tls _ _ _ => true
  | _ => false

/-- A call that builds or frees the client configuration. -/
def Event.is_config : Event → Bool
  | Event.getenv _ _ => true
  | Event.config_builder_new => true
  | Event.load_native_roots _ => true
  | Event.set_certificate_verifier => true
  | Event.config_builder_build => true
  | Event.config_free => true
  | _ => false

/-- A `write` call. -/
def Event.is_write : Event → Bool
  | Event.write _ _ _ => true
  | _ => false

/-- A call that feeds ciphertext to the session or lets it process it. -/
def Event.is_feed : Event → Bool
  | Event.read_tls _ _ _ => true
  | Event.process_new_packets _ => true
  | _ => false

/-- A feed call after which the copy into the session goes on: a `read_tls`
that reported OK with a count that is not zero, or a `process_new_packets`
that reported OK. -/
def Event.is_fed_ok (K : crustls_h) : Event → Bool
  | Event.read_tls _ result n => result == K.RUSTLS_RESULT_OK && n != 0
  | Event.process_new_packets result => result == K.RUSTLS_RESULT_OK
  | _ => false

/-- A call of the plaintext drain: `rustls_client_session_read` or `write`. -/
def Event.is_drain : Event → Bool
  | Event.session_read _ _ _ => true
  | Event.write _ _ _ => true
  | _ => false

/-- A call of the read phase. -/
def Event.is_read_phase : Event → Bool
  | Event.read _ _ _ => true
  | Event.read_tls _ _ _ => true
  | Event.process_new_packets _ => true
  | Event.session_read _ _ _ => true
  | Event.write _ _ _ => true
  | _ => false

/-- A call of the write phase. -/
def Event.is_write_phase : Event → Bool
  | Event.write_tls _ _ _ => true
  | Event.write _ _ _ => true
  | _ => false

/-- A trace without a close_notify report and without a zero-byte socket
read. -/
def calm (K : crustls_h) (tr : List Event) : Prop :=
  ∀ e ∈ tr, e.is_close_notify K = false ∧ e.is_zero_read = false

/-- The three forms the trace of the exchange on socket `fd` can take,
with the jump `j` taken at its end (`none`: still running):
calm throughout, and then it did not end in success; or a zero-byte socket
read after a calm trace, ending in failure; or a close_notify report after a
calm trace, followed by one socket read that decides the outcome. -/
def exchange_shape (K : crustls_h) (fd : Int) (tr : List Event) (j : Option Jump) : Prop :=
  (calm K tr ∧ j ≠ some (Jump.cleanup 0)) ∨
  (∃ pre, tr = pre ++ [Event.read fd 2048 0] ∧ calm K pre ∧ j = some (Jump.cleanup 1)) ∨
  (∃ pre n m, tr = pre ++
      [Event.session_read 2048 K.RUSTLS_RESULT_ALERT_CLOSE_NOTIFY n, Event.read fd 2048 m] ∧
    calm K pre ∧ j = some (Jump.cleanup (if m = 0 then 0 else 1)))

/-- Run number `k` (from 0) of `do_request` when runs are started one after
the other from the world `w`, each from the world the one before left. -/
def request_run {σ : Type} (K : crustls_h) (sys : Sys σ) (fuel : Nat) (hostname path : List Byte) :
    Nat → σ → Run σ Int
  | 0, w => do_request K sys fuel w hostname path
  | k + 1, w => do_request K sys fuel (request_run K sys fuel hostname path k w).w hostname path

/-- The calls of the runs 0 to `k - 1`, in order. -/
def request_traces {σ : Type} (K : crustls_h) (sys : Sys σ) (fuel : Nat)
    (hostname path : List Byte) : Nat → σ → List Event
  | 0, _ => []
  | k + 1, w => request_traces K sys fuel hostname path k w ++
      (request_run K sys fuel hostname path k w).tr

/-- Call number `i` (from 0) of `do_read` in a read phase that starts in the
world `w` and whose first `do_read` has the budget `F`: each call starts in
the world the one before left (and has one unit of budget less). -/
def read_run {σ : Type} (K : crustls_h) (sys : Sys σ) (sockfd : Int) (F : Nat) :
    Nat → σ → Run σ Int
  | 0, w => do_read K sys F w sockfd
  | i + 1, w => do_read K sys (F - (i + 1)) (read_run K sys sockfd F i w).w sockfd

/-- The world in which call number `i` of `do_read` in a read phase starts: the
world the phase started in for the first call, the world the call before left
for the others. -/
def read_start {σ : Type} (K : crustls_h) (sys : Sys σ) (sockfd : Int) (F : Nat) :
    Nat → σ → σ
  | 0, w => w
  | i + 1, w => (read_run K sys sockfd F i w).w

/-- The calls of the `do_read` calls 0 to `k - 1` of a read phase, in order. -/
def read_traces {σ : Type} (K : crustls_h) (sys : Sys σ) (sockfd : Int) (F : Nat) :
    Nat → σ → List Event
  | 0, _ => []
  | k + 1, w => read_traces K sys sockfd F k w ++ (read_run K sys sockfd F k w).tr

/-! ## Scripted worlds -/

/-- A world that answers from scripts: one fixed answer for each call made at
most once per connection, a list of answers (used up in order) for each call
made in a loop. -/
structure Script where
  env : Option (List Byte)
  roots : Int
  gai : Int × Bool
  sock : Int
  conn : Int
  getfl : Int
  setfl : Int
  new : Int
  accept : Option Nat
  selects : List (Int × Bool × Bool)
  reads : List (Int × Bool × List Byte)
  writes : List Int
  wants_read : List Bool
  wants_write : List Bool
  read_tls : List (Int × Nat)
  process : List Int
  session_reads : List (Int × Nat × List Byte)
  write_tls : List (Int × Nat × List Byte)

/-- The oracles of a scripted world.  A script that has run out answers with
a failure; `accept = none` lets `rustls_client_session_write` take all it is
offered; `rustls_client_session_read_tls` takes the scripted count, but never
more than it is offered. -/
def scripted : Sys Script where
  getenv := fun w name => if name = "NO_CHECK_CERTIFICATE" then w.env else none
  load_native_roots := fun w => (w.roots, w)
  getaddrinfo := fun w _ => (w.gai, w)
  socket := fun w => (w.sock, w)
  connect := fun w _ => (w.conn, w)
  fcntl_getfl := fun w _ => (w.getfl, w)
  fcntl_setfl := fun w _ _ => (w.setfl, w)
  read := fun w _ _ => (w.reads.headD (-1, false, []), { w with reads := w.reads.tail })
  write := fun w _ _ => (w.writes.headD (-1), { w with writes := w.writes.tail })
  select := fun w _ => (w.selects.headD (-1, false, false), { w with selects := w.selects.tail })
  close := fun w _ => w
  session_new := fun w _ => (w.new, w)
  session_free := fun w _ => w
  wants_read := fun w => (w.wants_read.headD false, { w with wants_read := w.wants_read.tail })
  wants_write := fun w => (w.wants_write.headD false, { w with wants_write := w.wants_write.tail })
  read_tls := fun w offered =>
    (((w.read_tls.headD (1, 0)).1, min (w.read_tls.headD (1, 0)).2 offered.length),
      { w with read_tls := w.read_tls.tail })
  process_new_packets := fun w => (w.process.headD 1, { w with process := w.process.tail })
  session_read := fun w _ =>
    (w.session_reads.headD (1, 0, []), { w with session_reads := w.session_reads.tail })
  session_write := fun w offered =>
    ((0, match w.accept with | none => offered.length | some k => k), w)
  write_tls := fun w _ => (w.write_tls.headD (1, 0, []), { w with write_tls := w.write_tls.tail })

/-- Sample values of the two result codes. -/
def codes : crustls_h := ⟨0, 7200⟩

/-- A scripted world in which nothing has been scripted: resolution fails. -/
def blank : Script :=
  { env := none, roots := 0, gai := (1, false), sock := 3, conn := 0, getfl := 0, setfl := 0,
    new := 0, accept := none, selects := [], reads := [], writes := [], wants_read := [],
    wants_write := [], read_tls := [], process := [], session_reads := [], write_tls := [] }


/-- An exchange in which the session never wants anything: `select` succeeds
twice and then fails. -/
def idle : Script :=
  { blank with
    gai := (0, true)
    selects := [(1, true, true), (1, true, true)] }

/-- One connection that ends in a clean close: the session first sends three
bytes, then five bytes arrive from the socket, are taken by the engine in two
steps and yield five bytes of plaintext and a close_notify, after which the
socket reports end of file. -/
def closing : Script :=
  { blank with
    gai := (0, true)
    selects := [(1, true, true), (1, true, true)]
    wants_read := [false, true]
    wants_write := [true, false]
    write_tls := [(0, 3, [1, 2, 3])]
    writes := [3, 5]
    reads := [(5, false, [10, 11, 12, 13, 14]), (0, false, [])]
    read_tls := [(0, 2), (0, 3)]
    process := [0, 0]
    session_reads := [(0, 5, [72, 84, 84, 80, 47]), (7200, 0, [])] }

/-- A connection whose descriptor cannot be made non-blocking. -/
def nonblock_fails : Script :=
  { blank with
    gai := (0, true)
    getfl := -1 }

/-- A command line with a host name `h` and the path `/`. -/
def argv_h : List (List Byte) := [[112], [104], [47]]

/-- A pass in which the socket is ready both ways and the session wants both:
two bytes arrive and are taken by the engine without yielding plaintext, the
next socket read would block, and the session then hands out three bytes. -/
def both_ready : Script :=
  { blank with
    gai := (0, true)
    selects := [(1, true, true)]
    wants_read := [true]
    wants_write := [true]
    reads := [(2, false, [7, 8]), (-1, true, [])]
    read_tls := [(0, 2)]
    process := [0]
    session_reads := [(0, 0, [])]
    write_tls := [(0, 3, [1, 2, 3])]
    writes := [3] }

/-- A connection on which two bytes arrive, are taken by the engine and yield
a close_notify, after which the socket delivers five more bytes. -/
def data_after_close : Script :=
  { blank with
    gai := (0, true)
    reads := [(2, false, [7, 8]), (5, false, [1, 2, 3, 4, 5])]
    read_tls := [(0, 2)]
    process := [0]
    session_reads := [(7200, 0, [])] }

/-! ## Theorems -/

theorem write_all_loop_returns {σ : Type} (sys : Sys σ) (fd : Int) (buf : List Byte) :
    ∀ (fuel : Nat) (w : σ) (n : Int), n.toNat < fuel →
      ∃ v, (write_all_loop sys fd buf fuel w n).ret = some v ∧ (v = 0 ∨ v = 1) := by
  intro fuel
  induction fuel with
  | zero => intro w n h; omega
  | succ fuel ih =>
    intro w n h
    unfold write_all_loop
    by_cases hn : n > 0
    · simp only [hn, if_true]
      by_cases h1 : (sys.write w fd (buf.take n.toNat)).1 < 0
      · simp [h1]
      · by_cases h2 : (sys.write w fd (buf.take n.toNat)).1 = 0
        · simp [h2]
        · simp only [h1, h2, if_false]
          apply ih
          omega
    · simp [hn]

theorem write_all_returns {σ : Type} (sys : Sys σ) (w : σ) (fd : Int) (buf : List Byte)
    (n : Int) : ∃ v, (write_all sys w fd buf n).ret = some v ∧ (v = 0 ∨ v = 1) :=
  write_all_loop_returns sys fd buf (n.toNat + 1) w n (Nat.lt_succ_self _)

theorem write_all_loop_events {σ : Type} (sys : Sys σ) (fd : Int) (buf : List Byte) :
    ∀ (fuel : Nat) (w : σ) (n : Int),
      ∀ e ∈ (write_all_loop sys fd buf fuel w n).tr, e.is_write = true := by
  intro fuel
  induction fuel with
  | zero => intro w n e he; simp [write_all_loop] at he
  | succ fuel ih =>
    intro w n e he
    simp only [write_all_loop] at he
    split_ifs at he
    · simp at he; subst he; rfl
    · simp at he; subst he; rfl
    · simp only [List.mem_cons] at he
      rcases he with he | he
      · subst he; rfl
      · exact ih _ _ e he
    · simp at he

theorem write_all_events {σ : Type} (sys : Sys σ) (w : σ) (fd : Int) (buf : List Byte)
    (n : Int) : ∀ e ∈ (write_all sys w fd buf n).tr, e.is_write = true :=
  write_all_loop_events sys fd buf (n.toNat + 1) w n

/-- C1 (failing input): with the three bytes 97, 98, 99 to write and a
descriptor that accepts two bytes and then one, `write_all` returns 0, its
second call offers byte 0 of the buffer again, and the bytes accepted are
97, 98, 97: not the buffer. -/
theorem write_all_repeats_start :
    (write_all scripted { blank with writes := [2, 1] } 1 [97, 98, 99] 3).ret = some 0 ∧
    (write_all scripted { blank with writes := [2, 1] } 1 [97, 98, 99] 3).tr =
      [Event.write 1 [97, 98, 99] 2, Event.write 1 [97] 1] ∧
    accepted_by_write (write_all scripted { blank with writes := [2, 1] } 1 [97, 98, 99] 3).tr
      = [97, 98, 97] ∧
    accepted_by_write (write_all scripted { blank with writes := [2, 1] } 1 [97, 98, 99] 3).tr
      ≠ [97, 98, 99] := by
  decide

theorem offered_eq_drop (buf : List Byte) (len k : Nat) :
    (buf.drop k).take (len - k) = (buf.take len).drop k :=
  (List.drop_take len k buf).symm

theorem copy_tls_loop_events {σ : Type} (K : crustls_h) (sys : Sys σ) (buf : List Byte)
    (len : Nat) : ∀ (fuel : Nat) (w : σ) (k : Nat),
      ∀ e ∈ (copy_tls_loop K sys buf len fuel w k).tr, e.is_feed = true := by
  intro fuel
  induction fuel with
  | zero => intro w k e he; simp [copy_tls_loop] at he
  | succ fuel ih =>
    intro w k e he
    simp only [copy_tls_loop] at he
    split_ifs at he
    · simp at he; subst he; rfl
    · simp at he; subst he; rfl
    · simp at he; subst he; rfl
    · simp only [List.mem_cons, List.mem_singleton] at he
      rcases he with he | he
      · subst he; rfl
      · simp at he; subst he; rfl
    · simp only [List.mem_cons] at he
      rcases he with he | he | he
      · subst he; rfl
      · subst he; rfl
      · exact ih _ _ e he
    · simp at he

theorem copy_tls_loop_feeds {σ : Type} (K : crustls_h) (sys : Sys σ) (buf : List Byte)
    (len : Nat)
    (hengine : ∀ s offered, (sys.read_tls s offered).1.1 = K.RUSTLS_RESULT_OK →
      (sys.read_tls s offered).1.2 ≤ offered.length) :
    ∀ (fuel : Nat) (w : σ) (k : Nat), k ≤ len → len - k < fuel →
      ∃ res out, (copy_tls_loop K sys buf len fuel w k).ret = some (res, out) ∧
        fed_in_order (buf.take len) k (copy_tls_loop K sys buf len fuel w k).tr ∧
        (res = 0 → out = len ∧
          accepted_by_read_tls (copy_tls_loop K sys buf len fuel w k).tr
            = (buf.take len).drop k) := by
  intro fuel
  induction fuel with
  | zero => intro w k _ h; omega
  | succ fuel ih =>
    intro w k hk hfuel
    have hoff := offered_eq_drop buf len k
    have hacc := hengine w ((buf.take len).drop k)
    have hlen : ((buf.take len).drop k).length ≤ len - k := by
      simp only [List.length_drop, List.length_take]; omega
    simp only [copy_tls_loop, hoff]
    split_ifs with h1 h2 h3 h4 h5
    · exact ⟨1, k, rfl, ⟨rfl, trivial⟩, fun h => absurd h (by decide)⟩
    · exact ⟨1, k, rfl, ⟨rfl, trivial⟩, fun h => absurd h (by decide)⟩
    · exact ⟨1, k, rfl, ⟨rfl, trivial⟩, fun h => absurd h (by decide)⟩
    · exact ⟨1, _, rfl, ⟨rfl, trivial⟩, fun h => absurd h (by decide)⟩
    · have hacc := hacc (by simpa using h2)
      obtain ⟨res, out, hret, hfed, hok⟩ :=
        ih (sys.process_new_packets (sys.read_tls w ((buf.take len).drop k)).2).2
          (k + (sys.read_tls w ((buf.take len).drop k)).1.2) (by omega) (by omega)
      refine ⟨res, out, hret, ⟨rfl, hfed⟩, fun h => ?_⟩
      obtain ⟨ho, ha⟩ := hok h
      refine ⟨ho, ?_⟩
      show List.take _ _ ++ accepted_by_read_tls (_ :: _) = _
      simp only [accepted_by_read_tls]
      rw [ha, ← List.drop_drop, List.take_append_drop]
    · have hk2 : k = len := by omega
      refine ⟨0, k, rfl, trivial, fun _ => ⟨hk2, ?_⟩⟩
      subst hk2
      simp [accepted_by_read_tls]

/-- The copy into the session always returns: its budget is never used up. -/
theorem copy_tls_loop_returns {σ : Type} (K : crustls_h) (sys : Sys σ) (buf : List Byte)
    (len : Nat) : ∀ (fuel : Nat) (w : σ) (k : Nat), len - k < fuel →
      ∃ v, (copy_tls_loop K sys buf len fuel w k).ret = some v := by
  intro fuel
  induction fuel with
  | zero => intro w k h; omega
  | succ fuel ih =>
    intro w k hfuel
    simp only [copy_tls_loop]
    split_ifs with h1 h2 h3 h4 h5
    · exact ⟨_, rfl⟩
    · exact ⟨_, rfl⟩
    · exact ⟨_, rfl⟩
    · exact ⟨_, rfl⟩
    · exact ih _ _ (by omega)
    · exact ⟨_, rfl⟩

theorem copy_tls_returns {σ : Type} (K : crustls_h) (sys : Sys σ) (w : σ) (buf : List Byte)
    (len : Nat) : ∃ v, (copy_tls_bytes_into_client_session K sys w buf len).ret = some v :=
  copy_tls_loop_returns K sys buf len (len + 1) w 0 (by omega)

theorem store_eq : ∀ (buf data : List Byte), data.length ≤ buf.length →
    store buf data = data ++ buf.drop data.length := by
  intro buf
  induction buf with
  | nil =>
    intro data h
    cases data with
    | nil => rfl
    | cons d t => simp at h
  | cons b buf ih =>
    intro data h
    cases data with
    | nil => rfl
    | cons d t =>
      simp only [List.length_cons, Nat.add_le_add_iff_right] at h
      simp only [store, ih t h, List.cons_append, List.length_cons, List.drop_succ_cons]

theorem bzero_length (size : Nat) : (bzero size).length = size := by
  simp [bzero]

theorem store_take (data : List Byte) (size : Nat) (h : data.length ≤ size) :
    (store (bzero size) data).take data.length = data := by
  rw [store_eq _ _ (by rw [bzero_length]; exact h)]
  exact List.take_left _ _

theorem calm_nil (K : crustls_h) : calm K [] := by
  intro e he; simp at he

theorem calm_append (K : crustls_h) (a b : List Event) :
    calm K (a ++ b) ↔ calm K a ∧ calm K b := by
  simp only [calm, List.mem_append]
  constructor
  · intro h
    exact ⟨fun e he => h e (Or.inl he), fun e he => h e (Or.inr he)⟩
  · rintro ⟨ha, hb⟩ e (he | he)
    · exact ha e he
    · exact hb e he

theorem calm_cons (K : crustls_h) (e : Event) (t : List Event) :
    calm K (e :: t) ↔ (e.is_close_notify K = false ∧ e.is_zero_read = false) ∧ calm K t := by
  simp only [calm, List.mem_cons, forall_eq_or_imp]

theorem calm_of_write (K : crustls_h) (tr : List Event) (h : ∀ e ∈ tr, e.is_write = true) :
    calm K tr := by
  intro e he
  have := h e he
  cases e <;> simp_all [Event.is_write, Event.is_close_notify, Event.is_zero_read]

theorem calm_of_feed (K : crustls_h) (tr : List Event) (h : ∀ e ∈ tr, e.is_feed = true) :
    calm K tr := by
  intro e he
  have := h e he
  cases e <;> simp_all [Event.is_feed, Event.is_close_notify, Event.is_zero_read]

theorem is_drain_of_is_write (x : Event) (h : x.is_write = true) : x.is_drain = true := by
  cases x <;> simp_all [Event.is_write, Event.is_drain]

theorem calm_session_read (K : crustls_h) (c : Nat) (res : Int) (n : Nat)
    (h : ¬ res = K.RUSTLS_RESULT_ALERT_CLOSE_NOTIFY) : calm K [Event.session_read c res n] := by
  rw [calm_cons]
  exact ⟨⟨by simp [Event.is_close_notify, h], rfl⟩, calm_nil K⟩

theorem copy_plaintext_events {σ : Type} (K : crustls_h) (sys : Sys σ) :
    ∀ (fuel : Nat) (w : σ),
      ∀ e ∈ (copy_plaintext_to_stdout K sys fuel w).tr, e.is_drain = true := by
  intro fuel
  induction fuel with
  | zero => intro w e he; simp [copy_plaintext_to_stdout] at he
  | succ fuel ih =>
    intro w e he
    simp only [copy_plaintext_to_stdout] at he
    have hw := write_all_events sys (sys.session_read w 2048).2 STDOUT_FILENO
      (store (bzero 2048) (sys.session_read w 2048).1.2.2)
      (int_of_size_t (sys.session_read w 2048).1.2.1)
    generalize write_all sys (sys.session_read w 2048).2 STDOUT_FILENO
      (store (bzero 2048) (sys.session_read w 2048).1.2.2)
      (int_of_size_t (sys.session_read w 2048).1.2.1) = wa at hw he
    generalize sys.session_read w 2048 = r at he
    split_ifs at he
    · simp at he; subst he; rfl
    · simp at he; subst he; rfl
    · simp at he; subst he; rfl
    · split at he
      · simp only [List.mem_cons] at he
        rcases he with he | he
        · subst he; rfl
        · exact is_drain_of_is_write _ (hw e he)
      · split_ifs at he
        · simp only [List.mem_cons] at he
          rcases he with he | he
          · subst he; rfl
          · exact is_drain_of_is_write _ (hw e he)
        · simp only [List.mem_cons, List.mem_append] at he
          rcases he with he | he | he
          · subst he; rfl
          · exact is_drain_of_is_write _ (hw e he)
          · exact ih _ e he

/-- The plaintext drain reports close_notify exactly when its last engine
call did, and no earlier call did. -/
theorem copy_plaintext_shape {σ : Type} (K : crustls_h) (sys : Sys σ) :
    ∀ (fuel : Nat) (w : σ),
      (calm K (copy_plaintext_to_stdout K sys fuel w).tr ∧
        (copy_plaintext_to_stdout K sys fuel w).ret ≠ some CRUSTLS_DEMO_CLOSE_NOTIFY) ∨
      (∃ pre n, (copy_plaintext_to_stdout K sys fuel w).tr =
          pre ++ [Event.session_read 2048 K.RUSTLS_RESULT_ALERT_CLOSE_NOTIFY n] ∧
        calm K pre ∧
        (copy_plaintext_to_stdout K sys fuel w).ret = some CRUSTLS_DEMO_CLOSE_NOTIFY) := by
  intro fuel
  induction fuel with
  | zero => intro w; left; simp [copy_plaintext_to_stdout, calm_nil]
  | succ fuel ih =>
    intro w
    simp only [copy_plaintext_to_stdout]
    have hw := calm_of_write K _ (write_all_events sys (sys.session_read w 2048).2 STDOUT_FILENO
      (store (bzero 2048) (sys.session_read w 2048).1.2.2)
      (int_of_size_t (sys.session_read w 2048).1.2.1))
    generalize write_all sys (sys.session_read w 2048).2 STDOUT_FILENO
      (store (bzero 2048) (sys.session_read w 2048).1.2.2)
      (int_of_size_t (sys.session_read w 2048).1.2.1) = wa at hw ⊢
    generalize sys.session_read w 2048 = r
    split_ifs with h1 h2 h3
    · right
      exact ⟨[], r.1.2.1, by rw [h1]; rfl, calm_nil K, rfl⟩
    · left
      exact ⟨calm_session_read K _ _ _ h1,
        by simp [CRUSTLS_DEMO_ERROR, CRUSTLS_DEMO_CLOSE_NOTIFY]⟩
    · left
      exact ⟨calm_session_read K _ _ _ h1,
        by simp [CRUSTLS_DEMO_OK, CRUSTLS_DEMO_CLOSE_NOTIFY]⟩
    · have he := calm_session_read K 2048 r.1.1 r.1.2.1 h1
      split
      · left
        exact ⟨(calm_append K [_] _).2 ⟨he, hw⟩, by simp⟩
      · split_ifs
        · left
          exact ⟨(calm_append K [_] _).2 ⟨he, hw⟩,
            by simp [CRUSTLS_DEMO_ERROR, CRUSTLS_DEMO_CLOSE_NOTIFY]⟩
        · rcases ih wa.w with ⟨hc, hr⟩ | ⟨pre, n, ht, hc, hr⟩
          · left
            exact ⟨(calm_append K [_] _).2 ⟨he, (calm_append K _ _).2 ⟨hw, hc⟩⟩, hr⟩
          · right
            refine ⟨Event.session_read 2048 r.1.1 r.1.2.1 :: (wa.tr ++ pre), n, ?_, ?_, hr⟩
            · simp only [ht, List.cons_append, List.append_assoc]
            · exact (calm_append K [_] _).2 ⟨he, (calm_append K _ _).2 ⟨hw, hc⟩⟩

theorem calm_read (K : crustls_h) (fd : Int) (c : Nat) (n : Int) (h : ¬ n = 0) :
    calm K [Event.read fd c n] := by
  rw [calm_cons]
  exact ⟨⟨rfl, by simp [Event.is_zero_read, h]⟩, calm_nil K⟩

theorem copy_tls_events {σ : Type} (K : crustls_h) (sys : Sys σ) (w : σ) (buf : List Byte)
    (len : Nat) :
    ∀ e ∈ (copy_tls_bytes_into_client_session K sys w buf len).tr, e.is_feed = true :=
  copy_tls_loop_events K sys buf len (len + 1) w 0

/-- The forms of the trace of one `do_read`. -/
theorem do_read_shape {σ : Type} (K : crustls_h) (sys : Sys σ) (fuel : Nat) (w : σ)
    (sockfd : Int) :
    (calm K (do_read K sys fuel w sockfd).tr ∧
      (do_read K sys fuel w sockfd).ret ≠ some CRUSTLS_DEMO_CLOSE_NOTIFY) ∨
    ((do_read K sys fuel w sockfd).tr = [Event.read sockfd 2048 0] ∧
      (do_read K sys fuel w sockfd).ret = some CRUSTLS_DEMO_EOF) ∨
    (∃ pre n m, (do_read K sys fuel w sockfd).tr = pre ++
        [Event.session_read 2048 K.RUSTLS_RESULT_ALERT_CLOSE_NOTIFY n, Event.read sockfd 2048 m] ∧
      calm K pre ∧
      (do_read K sys fuel w sockfd).ret =
        some (if m = 0 then CRUSTLS_DEMO_CLOSE_NOTIFY else CRUSTLS_DEMO_ERROR)) := by
  simp only [do_read]
  have hc := calm_of_feed K _ (copy_tls_events K sys (sys.read w sockfd 2048).2
    (store (bzero 2048) (sys.read w sockfd 2048).1.2.2) (sys.read w sockfd 2048).1.1.toNat)
  generalize copy_tls_bytes_into_client_session K sys (sys.read w sockfd 2048).2
    (store (bzero 2048) (sys.read w sockfd 2048).1.2.2) (sys.read w sockfd 2048).1.1.toNat
    = c at hc ⊢
  generalize sys.read w sockfd 2048 = r
  have hp := copy_plaintext_shape K sys fuel c.w
  generalize copy_plaintext_to_stdout K sys fuel c.w = p at hp ⊢
  generalize sys.read p.w sockfd 2048 = r2
  by_cases h1 : r.1.1 = 0
  · simp only [h1, ↓reduceIte]
    right; left
    simp
  simp only [h1, ↓reduceIte]
  have hr := calm_read K sockfd 2048 r.1.1 h1
  by_cases h2 : r.1.1 < 0
  · simp only [h2, ↓reduceIte]
    left
    by_cases h3 : r.1.2.1 = true
    · simp only [h3, ↓reduceIte]
      exact ⟨hr, by simp [CRUSTLS_DEMO_AGAIN, CRUSTLS_DEMO_CLOSE_NOTIFY]⟩
    · simp only [h3]
      exact ⟨hr, by simp [CRUSTLS_DEMO_ERROR, CRUSTLS_DEMO_CLOSE_NOTIFY]⟩
  simp only [h2, ↓reduceIte]
  rcases hcr : c.ret with _ | ⟨result, out⟩
  · left
    exact ⟨(calm_append K [_] _).2 ⟨hr, hc⟩, by simp⟩
  by_cases h4 : result = 0
  swap
  · simp only [ne_eq, h4, not_false_eq_true, ↓reduceIte]
    left
    exact ⟨(calm_append K [_] _).2 ⟨hr, hc⟩,
      by simp [CRUSTLS_DEMO_ERROR, CRUSTLS_DEMO_CLOSE_NOTIFY]⟩
  simp only [ne_eq, h4, not_true_eq_false, ↓reduceIte]
  rcases hpr : p.ret with _ | res
  · left
    rcases hp with ⟨hpc, _⟩ | ⟨pre, n, ht, hpc, hpr2⟩
    · exact ⟨(calm_append K [_] _).2 ⟨hr, (calm_append K _ _).2 ⟨hc, hpc⟩⟩, by simp⟩
    · rw [hpr] at hpr2
      exact absurd hpr2 (by simp)
  by_cases h5 : res = CRUSTLS_DEMO_CLOSE_NOTIFY
  · simp only [h5, not_true_eq_false, ↓reduceIte]
    rcases hp with ⟨_, hpr2⟩ | ⟨pre, n, ht, hpc, _⟩
    · rw [hpr, h5] at hpr2
      exact absurd rfl hpr2
    · right; right
      refine ⟨Event.read sockfd 2048 r.1.1 :: (c.tr ++ pre), n, r2.1.1, ?_, ?_, ?_⟩
      · by_cases h6 : r2.1.1 = 0 <;> simp [h6, ht]
      · exact (calm_append K [_] _).2 ⟨hr, (calm_append K _ _).2 ⟨hc, hpc⟩⟩
      · by_cases h6 : r2.1.1 = 0 <;> simp [h6]
  · simp only [h5, not_false_eq_true, ↓reduceIte]
    left
    rcases hp with ⟨hpc, _⟩ | ⟨pre, n, ht, hpc, hpr2⟩
    · exact ⟨(calm_append K [_] _).2 ⟨hr, (calm_append K _ _).2 ⟨hc, hpc⟩⟩,
        by simpa using h5⟩
    · rw [hpr] at hpr2
      exact absurd (Option.some.inj hpr2) h5

theorem exchange_shape_append (K : crustls_h) (fd : Int) (pre tr : List Event)
    (j : Option Jump) (hpre : calm K pre) (h : exchange_shape K fd tr j) :
    exchange_shape K fd (pre ++ tr) j := by
  rcases h with ⟨hc, hj⟩ | ⟨p, ht, hc, hj⟩ | ⟨p, n, m, ht, hc, hj⟩
  · exact Or.inl ⟨(calm_append K _ _).2 ⟨hpre, hc⟩, hj⟩
  · refine Or.inr (Or.inl ⟨pre ++ p, ?_, (calm_append K _ _).2 ⟨hpre, hc⟩, hj⟩)
    rw [ht, List.append_assoc]
  · refine Or.inr (Or.inr ⟨pre ++ p, n, m, ?_, (calm_append K _ _).2 ⟨hpre, hc⟩, hj⟩)
    rw [ht, List.append_assoc]

theorem exchange_shape_fallthrough (K : crustls_h) (fd : Int) (tr : List Event)
    (h : exchange_shape K fd tr (some Jump.fallthrough)) : calm K tr := by
  rcases h with ⟨hc, _⟩ | ⟨p, _, _, hj⟩ | ⟨p, n, m, _, _, hj⟩
  · exact hc
  · exact absurd hj (by simp)
  · exact absurd hj (by simp)

/-- The forms of the trace of the read phase. -/
theorem read_phase_shape {σ : Type} (K : crustls_h) (sys : Sys σ) (sockfd : Int) :
    ∀ (fuel : Nat) (w : σ),
      exchange_shape K sockfd (read_phase K sys sockfd fuel w).tr
        (read_phase K sys sockfd fuel w).ret := by
  intro fuel
  induction fuel with
  | zero =>
    intro w
    exact Or.inl ⟨calm_nil K, by simp [read_phase]⟩
  | succ fuel ih =>
    intro w
    simp only [read_phase]
    have hd := do_read_shape K sys fuel w sockfd
    have hk := ih (do_read K sys fuel w sockfd).w
    generalize read_phase K sys sockfd fuel (do_read K sys fuel w sockfd).w = k at hk ⊢
    generalize do_read K sys fuel w sockfd = d at hd ⊢
    rcases hdr : d.ret with _ | result
    · rw [hdr] at hd
      rcases hd with ⟨hc, _⟩ | ⟨_, hr⟩ | ⟨_, _, _, _, _, hr⟩
      · exact Or.inl ⟨hc, by simp⟩
      · exact absurd hr (by simp)
      · exact absurd hr (by simp)
    rw [hdr] at hd
    simp only [Option.some.injEq] at hd
    by_cases h1 : result = CRUSTLS_DEMO_AGAIN
    · simp only [h1, ↓reduceIte]
      rcases hd with ⟨hc, _⟩ | ⟨_, hr⟩ | ⟨_, _, m, _, _, hr⟩
      · exact Or.inl ⟨hc, by simp⟩
      · rw [h1] at hr; exact absurd hr (by decide)
      · rw [h1] at hr
        by_cases hm : m = 0
        · rw [if_pos hm] at hr; exact absurd hr (by decide)
        · rw [if_neg hm] at hr; exact absurd hr (by decide)
    simp only [h1, ↓reduceIte]
    by_cases h2 : result = CRUSTLS_DEMO_CLOSE_NOTIFY
    · simp only [h2, ↓reduceIte]
      rcases hd with ⟨_, hr⟩ | ⟨_, hr⟩ | ⟨p, n, m, ht, hc, hr⟩
      · exact absurd (by rw [h2]) hr
      · rw [h2] at hr; exact absurd hr (by decide)
      · rw [h2] at hr
        by_cases hm : m = 0
        · exact Or.inr (Or.inr ⟨p, n, m, ht, hc, by simp [hm]⟩)
        · rw [if_neg hm] at hr; exact absurd hr (by decide)
    simp only [h2, ↓reduceIte]
    by_cases h3 : result = CRUSTLS_DEMO_OK
    · simp only [ne_eq, h3, not_true_eq_false, ↓reduceIte]
      rcases hd with ⟨hc, _⟩ | ⟨_, hr⟩ | ⟨_, _, m, _, _, hr⟩
      · exact exchange_shape_append K sockfd _ _ _ hc hk
      · rw [h3] at hr; exact absurd hr (by decide)
      · rw [h3] at hr
        by_cases hm : m = 0
        · rw [if_pos hm] at hr; exact absurd hr (by decide)
        · rw [if_neg hm] at hr; exact absurd hr (by decide)
    simp only [ne_eq, h3, not_false_eq_true, ↓reduceIte]
    rcases hd with ⟨hc, _⟩ | ⟨ht, _⟩ | ⟨p, n, m, ht, hc, hr⟩
    · exact Or.inl ⟨hc, by simp⟩
    · exact Or.inr (Or.inl ⟨[], by rw [ht]; rfl, calm_nil K, rfl⟩)
    · by_cases hm : m = 0
      · rw [if_pos hm] at hr; exact absurd hr h2
      · exact Or.inr (Or.inr ⟨p, n, m, ht, hc, by simp [hm]⟩)

theorem write_phase_events {σ : Type} (K : crustls_h) (sys : Sys σ) (w : σ) (sockfd : Int) :
    ∀ e ∈ (write_phase K sys w sockfd).tr, e.is_write_phase = true := by
  intro e he
  simp only [write_phase] at he
  have hw := write_all_events sys (sys.write_tls w 2048).2 sockfd
    (store (bzero 2048) (sys.write_tls w 2048).1.2.2) (int_of_size_t (sys.write_tls w 2048).1.2.1)
  generalize write_all sys (sys.write_tls w 2048).2 sockfd
    (store (bzero 2048) (sys.write_tls w 2048).1.2.2) (int_of_size_t (sys.write_tls w 2048).1.2.1)
    = wa at hw he
  generalize sys.write_tls w 2048 = r at he
  have hwd : ∀ x : Event, x ∈ wa.tr → x.is_write_phase = true := by
    intro x hx
    have := hw x hx
    revert this
    cases x <;> simp [Event.is_write, Event.is_write_phase]
  by_cases h1 : r.1.1 = K.RUSTLS_RESULT_OK
  swap
  · simp only [ne_eq, h1, not_false_eq_true, ↓reduceIte] at he
    simp at he; subst he; rfl
  simp only [ne_eq, h1, not_true_eq_false, ↓reduceIte] at he
  by_cases h2 : r.1.2.1 = 0
  · simp only [h2, ↓reduceIte] at he
    simp at he; subst he; rfl
  simp only [h2, ↓reduceIte] at he
  rcases hwr : wa.ret with _ | res
  · rw [hwr] at he
    simp only [List.mem_cons] at he
    rcases he with he | he
    · subst he; rfl
    · exact hwd e he
  · rw [hwr] at he
    by_cases h3 : res = 0
    · simp only [ne_eq, h3, not_true_eq_false, ↓reduceIte, List.mem_cons] at he
      rcases he with he | he
      · subst he; rfl
      · exact hwd e he
    · simp only [ne_eq, h3, not_false_eq_true, ↓reduceIte, List.mem_cons] at he
      rcases he with he | he
      · subst he; rfl
      · exact hwd e he

theorem calm_of_write_phase (K : crustls_h) (tr : List Event)
    (h : ∀ e ∈ tr, e.is_write_phase = true) : calm K tr := by
  intro e he
  have := h e he
  revert this
  cases e <;> simp [Event.is_write_phase, Event.is_close_notify, Event.is_zero_read]

theorem write_phase_ret {σ : Type} (K : crustls_h) (sys : Sys σ) (w : σ) (sockfd : Int) :
    (write_phase K sys w sockfd).ret = none ∨
    (write_phase K sys w sockfd).ret = some Jump.fallthrough ∨
    (write_phase K sys w sockfd).ret = some (Jump.cleanup 1) := by
  simp only [write_phase]
  generalize write_all sys (sys.write_tls w 2048).2 sockfd
    (store (bzero 2048) (sys.write_tls w 2048).1.2.2) (int_of_size_t (sys.write_tls w 2048).1.2.1)
    = wa
  generalize sys.write_tls w 2048 = r
  by_cases h1 : r.1.1 = K.RUSTLS_RESULT_OK
  swap
  · simp [h1]
  by_cases h2 : r.1.2.1 = 0
  · simp [h1, h2]
  rcases hwr : wa.ret with _ | res
  · simp [h1, h2]
  · by_cases h3 : res = 0 <;> simp [h1, h2, h3]

theorem calm_of_quiet (K : crustls_h) (e : Event) (h1 : e.is_close_notify K = false)
    (h2 : e.is_zero_read = false) : calm K [e] := by
  rw [calm_cons]
  exact ⟨⟨h1, h2⟩, calm_nil K⟩

/-- The forms of the trace of one pass of the driver loop. -/
theorem driver_pass_shape {σ : Type} (K : crustls_h) (sys : Sys σ) (fuel : Nat) (w : σ)
    (sockfd : Int) :
    exchange_shape K sockfd (driver_pass K sys fuel w sockfd).tr
      (driver_pass K sys fuel w sockfd).ret := by
  simp only [driver_pass]
  generalize sys.select w (sockfd + 1) = s
  by_cases h1 : s.1.1 = -1
  · simp only [h1, ↓reduceIte]
    exact Or.inl ⟨calm_of_quiet K _ rfl rfl, by simp⟩
  simp only [h1, ↓reduceIte]
  have hrp := read_phase_shape K sys sockfd fuel (sys.wants_read s.2).2
  generalize read_phase K sys sockfd fuel (sys.wants_read s.2).2 = rp0 at hrp ⊢
  generalize sys.wants_read s.2 = q at hrp ⊢
  have hrp2 : exchange_shape K sockfd
      (if (q.1 && s.1.2.1) = true then rp0 else ⟨some Jump.fallthrough, q.2, []⟩).tr
      (if (q.1 && s.1.2.1) = true then rp0 else ⟨some Jump.fallthrough, q.2, []⟩).ret := by
    split_ifs
    · exact hrp
    · exact Or.inl ⟨calm_nil K, by simp⟩
  generalize (if (q.1 && s.1.2.1) = true then rp0 else ⟨some Jump.fallthrough, q.2, []⟩) = rp
    at hrp2 ⊢
  have hpre : calm K [Event.select (sockfd + 1) true true s.1.1, Event.wants_read q.1] :=
    (calm_append K [_] [_]).2 ⟨calm_of_quiet K _ rfl rfl, calm_of_quiet K _ rfl rfl⟩
  rcases hr : rp.ret with _ | j
  · rw [hr] at hrp2
    exact exchange_shape_append K sockfd [_, _] _ _ hpre hrp2
  cases j with
  | cleanup ret =>
    rw [hr] at hrp2
    exact exchange_shape_append K sockfd [_, _] _ _ hpre hrp2
  | fallthrough =>
    rw [hr] at hrp2
    have hc := exchange_shape_fallthrough K sockfd _ hrp2
    have hwp := calm_of_write_phase K _ (write_phase_events K sys (sys.wants_write rp.w).2 sockfd)
    have hwr := write_phase_ret K sys (sys.wants_write rp.w).2 sockfd
    generalize write_phase K sys (sys.wants_write rp.w).2 sockfd = wp at hwp hwr ⊢
    generalize sys.wants_write rp.w = q2
    have hq2 : calm K [Event.wants_write q2.1] := calm_of_quiet K _ rfl rfl
    simp only []
    split_ifs
    · refine Or.inl ⟨?_, ?_⟩
      · exact (calm_append K [_, _] _).2 ⟨hpre, (calm_append K _ _).2
          ⟨hc, (calm_append K [_] _).2 ⟨hq2, hwp⟩⟩⟩
      · rcases hwr with h | h | h <;> simp [h]
    · refine Or.inl ⟨?_, by simp⟩
      exact (calm_append K [_, _] _).2 ⟨hpre, (calm_append K _ _).2 ⟨hc, hq2⟩⟩

/-- The forms of the trace of the driver loop. -/
theorem driver_loop_shape {σ : Type} (K : crustls_h) (sys : Sys σ) (sockfd : Int) :
    ∀ (fuel : Nat) (w : σ),
      exchange_shape K sockfd (driver_loop K sys sockfd fuel w).tr
        ((driver_loop K sys sockfd fuel w).ret.map Jump.cleanup) := by
  intro fuel
  induction fuel with
  | zero =>
    intro w
    exact Or.inl ⟨calm_nil K, by simp [driver_loop]⟩
  | succ fuel ih =>
    intro w
    simp only [driver_loop]
    have hp := driver_pass_shape K sys fuel w sockfd
    have hk := ih (driver_pass K sys fuel w sockfd).w
    generalize driver_loop K sys sockfd fuel (driver_pass K sys fuel w sockfd).w = k at hk ⊢
    generalize driver_pass K sys fuel w sockfd = p at hp ⊢
    rcases hr : p.ret with _ | j
    · rw [hr] at hp
      exact hp
    cases j with
    | cleanup ret =>
      rw [hr] at hp
      exact hp
    | fallthrough =>
      rw [hr] at hp
      exact exchange_shape_append K sockfd _ _ _ (exchange_shape_fallthrough K sockfd _ hp) hk

/-- The forms of the trace of the exchange up to the label `cleanup`. -/
theorem send_request_body_shape {σ : Type} (K : crustls_h) (sys : Sys σ) (fuel : Nat) (w : σ)
    (sockfd : Int) (hostname path : List Byte) :
    exchange_shape K sockfd (send_request_body K sys fuel w sockfd hostname path).tr
      ((send_request_body K sys fuel w sockfd hostname path).ret.map Jump.cleanup) := by
  simp only [send_request_body]
  generalize snprintf (bzero 2048) 2048 (request_text path hostname) = buf
  generalize sys.session_write w (buf.take (strlen buf)) = r
  have hd := driver_loop_shape K sys sockfd fuel r.2
  generalize driver_loop K sys sockfd fuel r.2 = d at hd ⊢
  have he : calm K [Event.session_write (buf.take (strlen buf)) r.1.1 r.1.2] :=
    calm_of_quiet K _ rfl rfl
  split_ifs
  · exact Or.inl ⟨he, by simp⟩
  · exact Or.inl ⟨he, by simp⟩
  · exact exchange_shape_append K sockfd [_] _ _ he hd

/-- The whole exchange is its body followed by at most the `close` of the
label `cleanup`; the return value is that of the body. -/
theorem send_request_split {σ : Type} (K : crustls_h) (sys : Sys σ) (fuel : Nat) (w : σ)
    (sockfd : Int) (hostname path : List Byte) :
    ∃ cl, (cl = [] ∨ cl = [Event.close sockfd]) ∧
      (send_request_and_read_response K sys fuel w sockfd hostname path).tr =
        (send_request_body K sys fuel w sockfd hostname path).tr ++ cl ∧
      (send_request_and_read_response K sys fuel w sockfd hostname path).ret =
        (send_request_body K sys fuel w sockfd hostname path).ret := by
  simp only [send_request_and_read_response]
  generalize send_request_body K sys fuel w sockfd hostname path = b
  rcases hr : b.ret with _ | ret
  · exact ⟨[], Or.inl rfl, by simp, by simp [hr]⟩
  · by_cases h : sockfd > 0
    · exact ⟨[Event.close sockfd], Or.inr rfl, by simp [h], by simp [h]⟩
    · exact ⟨[], Or.inl rfl, by simp [h], by simp [h]⟩

/-- A list with exactly one element satisfying `P` splits at it in one way. -/
theorem split_unique {α : Type} (P : α → Bool) :
    ∀ (a a' c c' : List α) (b b' : α), (∀ x ∈ a, P x = false) → P b = true →
      (∀ x ∈ c, P x = false) → P b' = true → a ++ b :: c = a' ++ b' :: c' →
      a = a' ∧ b = b' ∧ c = c' := by
  intro a
  induction a with
  | nil =>
    intro a' c c' b b' _ _ hc hb' h
    cases a' with
    | nil =>
      simp only [List.nil_append, List.cons.injEq] at h
      exact ⟨rfl, h.1, h.2⟩
    | cons x t =>
      simp only [List.nil_append, List.cons_append, List.cons.injEq] at h
      have hmem : b' ∈ c := by rw [h.2]; simp
      have := hc b' hmem
      rw [hb'] at this
      exact absurd this (by simp)
  | cons y s ih =>
    intro a' c c' b b' ha hb hc hb' h
    cases a' with
    | nil =>
      simp only [List.nil_append, List.cons_append, List.cons.injEq] at h
      have := ha y (by simp)
      rw [h.1, hb'] at this
      exact absurd this (by simp)
    | cons x t =>
      simp only [List.cons_append, List.cons.injEq] at h
      obtain ⟨h1, h2, h3⟩ := ih t c c' b b' (fun z hz => ha z (by simp [hz])) hb hc hb' h.2
      exact ⟨by rw [h.1, h1], h2, h3⟩

theorem no_split {α : Type} (P : α → Bool) (l a c : List α) (b : α)
    (hl : ∀ x ∈ l, P x = false) (hb : P b = true) (h : l = a ++ b :: c) : False := by
  have := hl b (by rw [h]; simp)
  rw [hb] at this
  exact absurd this (by simp)

theorem closes_quiet (K : crustls_h) (fd : Int) (cl : List Event)
    (h : cl = [] ∨ cl = [Event.close fd]) :
    ∀ x ∈ cl, x.is_close_notify K = false ∧ x.is_zero_read = false := by
  intro x hx
  rcases h with h | h
  · rw [h] at hx; simp at hx
  · rw [h] at hx; simp at hx; subst hx; exact ⟨rfl, rfl⟩

/-- C2: the exchange returns 0 exactly when its trace contains a close_notify
report of `rustls_client_session_read` directly followed by a socket read
that returned zero; after any close_notify report there is exactly one more
socket read, nothing but the final `close` follows it, and its result decides
between 0 and 1; a zero-byte socket read whose predecessor is not a
close_notify report makes the exchange return 1. -/
theorem clean_close_is_sole_success {σ : Type} (K : crustls_h) (sys : Sys σ) (fuel : Nat)
    (w : σ) (sockfd : Int) (hostname path : List Byte) :
    ((send_request_and_read_response K sys fuel w sockfd hostname path).ret = some 0 ↔
      ∃ pre c n post, (send_request_and_read_response K sys fuel w sockfd hostname path).tr =
        pre ++ Event.session_read c K.RUSTLS_RESULT_ALERT_CLOSE_NOTIFY n ::
          Event.read sockfd 2048 0 :: post) ∧
    (∀ pre c n post, (send_request_and_read_response K sys fuel w sockfd hostname path).tr =
        pre ++ Event.session_read c K.RUSTLS_RESULT_ALERT_CLOSE_NOTIFY n :: post →
      ∃ m cl, post = Event.read sockfd 2048 m :: cl ∧ (cl = [] ∨ cl = [Event.close sockfd]) ∧
        (send_request_and_read_response K sys fuel w sockfd hostname path).ret =
          some (if m = 0 then 0 else 1)) ∧
    (∀ pre fd c post, (send_request_and_read_response K sys fuel w sockfd hostname path).tr =
        pre ++ Event.read fd c 0 :: post →
      (∀ c' n, pre.getLast? ≠ some (Event.session_read c' K.RUSTLS_RESULT_ALERT_CLOSE_NOTIFY n)) →
      (send_request_and_read_response K sys fuel w sockfd hostname path).ret = some 1) := by
  obtain ⟨cl, hcl, htr, hret⟩ := send_request_split K sys fuel w sockfd hostname path
  have hb := send_request_body_shape K sys fuel w sockfd hostname path
  rw [← hret] at hb
  generalize (send_request_body K sys fuel w sockfd hostname path).tr = btr at htr hb
  generalize (send_request_and_read_response K sys fuel w sockfd hostname path) = r at htr hb ⊢
  have hclq := closes_quiet K sockfd cl hcl
  have hcn : ∀ c n, (Event.session_read c K.RUSTLS_RESULT_ALERT_CLOSE_NOTIFY n).is_close_notify K
      = true := by
    intro c n; simp [Event.is_close_notify]
  have hzr : ∀ fd c, (Event.read fd c 0).is_zero_read = true := by
    intro fd c; simp [Event.is_zero_read]
  rcases hb with ⟨hc, hj⟩ | ⟨p, ht, hc, hj⟩ | ⟨p, n, m, ht, hc, hj⟩
  · -- calm throughout
    have hall : calm K r.tr := by
      rw [htr]; exact (calm_append K _ _).2 ⟨hc, hclq⟩
    refine ⟨⟨fun h => ?_, fun ⟨pre, c, n, post, h⟩ => ?_⟩, fun pre c n post h => ?_,
      fun pre fd c post h _ => ?_⟩
    · rw [h] at hj; exact absurd rfl hj
    · exact (no_split (fun e => e.is_close_notify K) _ _ _ _ (fun x hx => (hall x hx).1)
        (hcn c n) h).elim
    · exact (no_split (fun e => e.is_close_notify K) _ _ _ _ (fun x hx => (hall x hx).1)
        (hcn c n) h).elim
    · exact (no_split Event.is_zero_read _ _ _ _ (fun x hx => (hall x hx).2) (hzr fd c) h).elim
  · -- a zero-byte read without close_notify
    have hr1 : r.ret = some 1 := by
      rcases hr : r.ret with _ | v
      · rw [hr] at hj; simp at hj
      · rw [hr] at hj; simp at hj; rw [hj]
    have hnocn : ∀ x ∈ r.tr, x.is_close_notify K = false := by
      intro x hx
      rw [htr, ht] at hx
      simp only [List.mem_append, List.mem_singleton] at hx
      rcases hx with (hx | hx) | hx
      · exact (hc x hx).1
      · subst hx; rfl
      · exact (hclq x hx).1
    refine ⟨⟨fun h => ?_, fun ⟨pre, c, n, post, h⟩ => ?_⟩, fun pre c n post h => ?_,
      fun pre fd c post _ _ => hr1⟩
    · rw [hr1] at h; exact absurd h (by simp)
    · exact (no_split (fun e => e.is_close_notify K) _ _ _ _ hnocn (hcn c n) h).elim
    · exact (no_split (fun e => e.is_close_notify K) _ _ _ _ hnocn (hcn c n) h).elim
  · -- close_notify, then one socket read
    have hr1 : r.ret = some (if m = 0 then 0 else 1) := by
      rcases hr : r.ret with _ | v
      · rw [hr] at hj; simp at hj
      · rw [hr] at hj; simp at hj; rw [hj]
    have htr2 : r.tr = p ++ Event.session_read 2048 K.RUSTLS_RESULT_ALERT_CLOSE_NOTIFY n ::
        (Event.read sockfd 2048 m :: cl) := by
      rw [htr, ht]; simp
    have hpost : ∀ x ∈ Event.read sockfd 2048 m :: cl, x.is_close_notify K = false := by
      intro x hx
      simp only [List.mem_cons] at hx
      rcases hx with hx | hx
      · subst hx; rfl
      · exact (hclq x hx).1
    have huniq : ∀ pre c n' post,
        r.tr = pre ++ Event.session_read c K.RUSTLS_RESULT_ALERT_CLOSE_NOTIFY n' :: post →
        post = Event.read sockfd 2048 m :: cl := by
      intro pre c n' post h
      rw [htr2] at h
      exact (split_unique (fun e => e.is_close_notify K) _ _ _ _ _ _
        (fun x hx => (hc x hx).1) (hcn 2048 n) hpost (hcn c n') h).2.2.symm
    refine ⟨⟨fun h => ?_, fun ⟨pre, c, n', post, h⟩ => ?_⟩, fun pre c n' post h => ?_,
      fun pre fd c post h hlast => ?_⟩
    · rw [hr1] at h
      have hm : m = 0 := by
        by_contra hm
        rw [if_neg hm] at h
        exact absurd h (by simp)
      exact ⟨p, 2048, n, cl, by rw [htr2, hm]⟩
    · have := huniq pre c n' _ h
      simp only [List.cons.injEq, Event.read.injEq] at this
      rw [hr1, if_pos this.1.2.2.symm]
    · exact ⟨m, cl, huniq pre c n' post h, hcl, hr1⟩
    · by_cases hm : m = 0
      · exfalso
        have htr3 : r.tr = (p ++ [Event.session_read 2048 K.RUSTLS_RESULT_ALERT_CLOSE_NOTIFY n])
            ++ Event.read sockfd 2048 m :: cl := by
          rw [htr2]; simp
        rw [htr3] at h
        have hpre : ∀ x ∈ p ++ [Event.session_read 2048 K.RUSTLS_RESULT_ALERT_CLOSE_NOTIFY n],
            x.is_zero_read = false := by
          intro x hx
          simp only [List.mem_append, List.mem_singleton] at hx
          rcases hx with hx | hx
          · exact (hc x hx).2
          · subst hx; rfl
        have := (split_unique Event.is_zero_read _ _ _ _ _ _ hpre
          (by rw [hm]; exact hzr sockfd 2048) (fun x hx => (hclq x hx).2) (hzr fd c) h).1
        apply hlast 2048 n
        rw [← this]
        simp
      · rw [hr1, if_neg hm]

set_option maxRecDepth 4000 in
/-- C2, at a connection that ends in a clean close: the exchange returns 0,
so its trace has a close_notify report directly followed by a zero-byte
socket read. -/
theorem clean_close_is_sole_success_witness :
    ∃ pre c n post, (send_request_and_read_response codes scripted 10 closing 3 [104] [47]).tr =
      pre ++ Event.session_read c codes.RUSTLS_RESULT_ALERT_CLOSE_NOTIFY n ::
        Event.read 3 2048 0 :: post :=
  (clean_close_is_sole_success codes scripted 10 closing 3 [104] [47]).1.1 (by decide)

theorem is_read_phase_of_is_feed (x : Event) (h : x.is_feed = true) :
    x.is_read_phase = true := by
  revert h; cases x <;> simp [Event.is_feed, Event.is_read_phase]

theorem is_read_phase_of_is_drain (x : Event) (h : x.is_drain = true) :
    x.is_read_phase = true := by
  revert h; cases x <;> simp [Event.is_drain, Event.is_read_phase]

theorem is_exchange_of_is_read_phase (x : Event) (h : x.is_read_phase = true) :
    x.is_exchange = true := by
  revert h; cases x <;> simp [Event.is_exchange, Event.is_read_phase]

theorem is_exchange_of_is_write_phase (x : Event) (h : x.is_write_phase = true) :
    x.is_exchange = true := by
  revert h; cases x <;> simp [Event.is_exchange, Event.is_write_phase]

theorem do_read_events {σ : Type} (K : crustls_h) (sys : Sys σ) (fuel : Nat) (w : σ)
    (sockfd : Int) : ∀ e ∈ (do_read K sys fuel w sockfd).tr, e.is_read_phase = true := by
  simp only [do_read]
  have hc : ∀ e ∈ (copy_tls_bytes_into_client_session K sys (sys.read w sockfd 2048).2
      (store (bzero 2048) (sys.read w sockfd 2048).1.2.2) (sys.read w sockfd 2048).1.1.toNat).tr,
      e.is_read_phase = true :=
    fun e he => is_read_phase_of_is_feed e (copy_tls_events K sys _ _ _ e he)
  generalize copy_tls_bytes_into_client_session K sys (sys.read w sockfd 2048).2
    (store (bzero 2048) (sys.read w sockfd 2048).1.2.2) (sys.read w sockfd 2048).1.1.toNat
    = c at hc ⊢
  generalize sys.read w sockfd 2048 = r
  have hp : ∀ e ∈ (copy_plaintext_to_stdout K sys fuel c.w).tr, e.is_read_phase = true :=
    fun e he => is_read_phase_of_is_drain e (copy_plaintext_events K sys fuel c.w e he)
  generalize copy_plaintext_to_stdout K sys fuel c.w = p at hp ⊢
  generalize sys.read p.w sockfd 2048 = r2
  by_cases h1 : r.1.1 = 0
  · simp [h1, Event.is_read_phase]
  by_cases h2 : r.1.1 < 0
  · by_cases h3 : r.1.2.1 = true <;> simp [h1, h2, h3, Event.is_read_phase]
  simp only [h1, h2, ↓reduceIte]
  rcases hcr : c.ret with _ | ⟨result, out⟩
  · simpa [Event.is_read_phase] using hc
  by_cases h4 : result = 0
  swap
  · simpa [h4, Event.is_read_phase] using hc
  simp only [ne_eq, h4, not_true_eq_false, ↓reduceIte]
  rcases hpr : p.ret with _ | res
  · simp only [List.forall_mem_cons, List.forall_mem_append]
    exact ⟨rfl, hc, hp⟩
  by_cases h5 : res = CRUSTLS_DEMO_CLOSE_NOTIFY
  · by_cases h6 : r2.1.1 = 0
    · simp only [h5, h6, not_true_eq_false, ↓reduceIte, List.forall_mem_cons,
        List.forall_mem_append]
      exact ⟨rfl, ⟨hc, hp⟩, rfl, by simp⟩
    · simp only [h5, h6, not_true_eq_false, not_false_eq_true, ↓reduceIte,
        List.forall_mem_cons, List.forall_mem_append]
      exact ⟨rfl, ⟨hc, hp⟩, rfl, by simp⟩
  · simp only [h5, not_false_eq_true, ↓reduceIte, List.forall_mem_cons, List.forall_mem_append]
    exact ⟨rfl, hc, hp⟩

theorem read_phase_events {σ : Type} (K : crustls_h) (sys : Sys σ) (sockfd : Int) :
    ∀ (fuel : Nat) (w : σ),
      ∀ e ∈ (read_phase K sys sockfd fuel w).tr, e.is_read_phase = true := by
  intro fuel
  induction fuel with
  | zero => intro w e he; simp [read_phase] at he
  | succ fuel ih =>
    intro w
    simp only [read_phase]
    have hd := do_read_events K sys fuel w sockfd
    have hk := ih (do_read K sys fuel w sockfd).w
    generalize read_phase K sys sockfd fuel (do_read K sys fuel w sockfd).w = k at hk ⊢
    generalize do_read K sys fuel w sockfd = d at hd ⊢
    rcases hdr : d.ret with _ | result
    · exact hd
    by_cases h1 : result = CRUSTLS_DEMO_AGAIN
    · simpa only [h1, ↓reduceIte] using hd
    by_cases h2 : result = CRUSTLS_DEMO_CLOSE_NOTIFY
    · simpa only [h1, h2, ↓reduceIte] using hd
    by_cases h3 : result = CRUSTLS_DEMO_OK
    · intro e he
      simp only [h1, h2, ↓reduceIte] at he
      simp only [ne_eq, h3, not_true_eq_false, ↓reduceIte, List.mem_append] at he
      rcases he with he | he
      · exact hd e he
      · exact hk e he
    · simpa only [ne_eq, h1, h2, h3, not_false_eq_true, ↓reduceIte] using hd

theorem driver_pass_events {σ : Type} (K : crustls_h) (sys : Sys σ) (fuel : Nat) (w : σ)
    (sockfd : Int) : ∀ e ∈ (driver_pass K sys fuel w sockfd).tr, e.is_exchange = true := by
  simp only [driver_pass]
  generalize sys.select w (sockfd + 1) = s
  by_cases h1 : s.1.1 = -1
  · simp [h1, Event.is_exchange]
  simp only [h1, ↓reduceIte]
  have hrp : ∀ e ∈ (read_phase K sys sockfd fuel (sys.wants_read s.2).2).tr,
      e.is_exchange = true :=
    fun e he => is_exchange_of_is_read_phase e (read_phase_events K sys sockfd fuel _ e he)
  generalize read_phase K sys sockfd fuel (sys.wants_read s.2).2 = rp0 at hrp ⊢
  generalize sys.wants_read s.2 = q at hrp ⊢
  have hrp2 : ∀ e ∈ (if (q.1 && s.1.2.1) = true then rp0
      else ⟨some Jump.fallthrough, q.2, []⟩).tr, e.is_exchange = true := by
    split_ifs
    · exact hrp
    · simp
  generalize (if (q.1 && s.1.2.1) = true then rp0 else ⟨some Jump.fallthrough, q.2, []⟩) = rp
    at hrp2 ⊢
  rcases hr : rp.ret with _ | j
  · simp only [List.forall_mem_cons]
    exact ⟨rfl, rfl, hrp2⟩
  cases j with
  | cleanup ret =>
    simp only [List.forall_mem_cons]
    exact ⟨rfl, rfl, hrp2⟩
  | fallthrough =>
    have hwp : ∀ e ∈ (write_phase K sys (sys.wants_write rp.w).2 sockfd).tr,
        e.is_exchange = true :=
      fun e he => is_exchange_of_is_write_phase e (write_phase_events K sys _ sockfd e he)
    generalize write_phase K sys (sys.wants_write rp.w).2 sockfd = wp at hwp ⊢
    generalize sys.wants_write rp.w = q2
    simp only []
    split_ifs
    · simp only [List.forall_mem_cons, List.forall_mem_append]
      exact ⟨rfl, rfl, hrp2, rfl, hwp⟩
    · simp only [List.forall_mem_cons, List.forall_mem_append]
      exact ⟨rfl, rfl, hrp2, rfl, by simp⟩

theorem driver_loop_events {σ : Type} (K : crustls_h) (sys : Sys σ) (sockfd : Int) :
    ∀ (fuel : Nat) (w : σ),
      ∀ e ∈ (driver_loop K sys sockfd fuel w).tr, e.is_exchange = true := by
  intro fuel
  induction fuel with
  | zero => intro w e he; simp [driver_loop] at he
  | succ fuel ih =>
    intro w
    simp only [driver_loop]
    have hp := driver_pass_events K sys fuel w sockfd
    have hk := ih (driver_pass K sys fuel w sockfd).w
    generalize driver_loop K sys sockfd fuel (driver_pass K sys fuel w sockfd).w = k at hk ⊢
    generalize driver_pass K sys fuel w sockfd = p at hp ⊢
    rcases hr : p.ret with _ | j
    · exact hp
    cases j with
    | cleanup ret => exact hp
    | fallthrough =>
      simp only [List.forall_mem_append]
      exact ⟨hp, hk⟩

theorem driver_pass_head {σ : Type} (K : crustls_h) (sys : Sys σ) (fuel : Nat) (w : σ)
    (sockfd : Int) :
    ∃ rest, (driver_pass K sys fuel w sockfd).tr =
      Event.select (sockfd + 1) true true (sys.select w (sockfd + 1)).1.1 :: rest := by
  simp only [driver_pass]
  generalize sys.select w (sockfd + 1) = s
  by_cases h1 : s.1.1 = -1
  · simp only [h1, ↓reduceIte]
    exact ⟨_, rfl⟩
  simp only [h1, ↓reduceIte]
  generalize (if (sys.wants_read s.2).1 && s.1.2.1 then
    read_phase K sys sockfd fuel (sys.wants_read s.2).2
    else ⟨some Jump.fallthrough, (sys.wants_read s.2).2, []⟩) = rp
  rcases hr : rp.ret with _ | j
  · exact ⟨_, rfl⟩
  cases j with
  | cleanup ret => exact ⟨_, rfl⟩
  | fallthrough =>
    simp only []
    split_ifs
    · exact ⟨_, rfl⟩
    · exact ⟨_, rfl⟩

theorem driver_loop_head {σ : Type} (K : crustls_h) (sys : Sys σ) (fuel : Nat) (w : σ)
    (sockfd : Int) :
    ∃ rest, (driver_loop K sys sockfd (fuel + 1) w).tr =
      Event.select (sockfd + 1) true true (sys.select w (sockfd + 1)).1.1 :: rest := by
  obtain ⟨rest, hrest⟩ := driver_pass_head K sys fuel w sockfd
  simp only [driver_loop]
  generalize driver_loop K sys sockfd fuel (driver_pass K sys fuel w sockfd).w = k
  generalize driver_pass K sys fuel w sockfd = p at hrest ⊢
  rcases hr : p.ret with _ | j
  · exact ⟨rest, hrest⟩
  cases j with
  | cleanup ret => exact ⟨rest, hrest⟩
  | fallthrough => exact ⟨rest ++ k.tr, by simp [hrest]⟩

theorem is_feed_of_is_drain (x : Event) (h : x.is_drain = true) : x.is_feed = false := by
  revert h; cases x <;> simp [Event.is_drain, Event.is_feed]

theorem not_read_of_is_drain (x : Event) (h : x.is_drain = true) (fd : Int) (c : Nat) (m : Int) :
    x ≠ Event.read fd c m := by
  intro hx; rw [hx] at h; simp [Event.is_drain] at h

/-- The copy into the session returns 0 or 1, and 0 exactly when every one of
its calls let it go on. -/
theorem copy_tls_loop_verdict {σ : Type} (K : crustls_h) (sys : Sys σ) (buf : List Byte)
    (len : Nat)
    (hengine : ∀ s offered, (sys.read_tls s offered).1.1 = K.RUSTLS_RESULT_OK →
      (sys.read_tls s offered).1.2 ≤ offered.length) :
    ∀ (fuel : Nat) (w : σ) (k : Nat), k ≤ len → len - k < fuel →
      ∃ res out, (copy_tls_loop K sys buf len fuel w k).ret = some (res, out) ∧
        (res = 0 ∨ res = 1) ∧
        (res = 0 ↔ ∀ e ∈ (copy_tls_loop K sys buf len fuel w k).tr, e.is_fed_ok K = true) := by
  intro fuel
  induction fuel with
  | zero => intro w k _ h; omega
  | succ fuel ih =>
    intro w k hk hfuel
    have hacc := hengine w ((buf.drop k).take (len - k))
    have hlen : ((buf.drop k).take (len - k)).length ≤ len - k := by
      simp only [List.length_take]; omega
    simp only [copy_tls_loop]
    generalize (buf.drop k).take (len - k) = offered at hacc hlen
    generalize sys.read_tls w offered = r at hacc
    by_cases h1 : k < len
    swap
    · simp [h1]
    simp only [h1, ↓reduceIte]
    by_cases h2 : r.1.1 = K.RUSTLS_RESULT_OK
    swap
    · simp only [ne_eq, h2, not_false_eq_true, ↓reduceIte]
      refine ⟨1, k, rfl, Or.inr rfl, ?_⟩
      simp [Event.is_fed_ok, h2]
    simp only [ne_eq, h2, not_true_eq_false, ↓reduceIte]
    have hacc := hacc h2
    by_cases h3 : r.1.2 = 0
    · simp only [h3, ↓reduceIte]
      refine ⟨1, k, rfl, Or.inr rfl, ?_⟩
      simp [Event.is_fed_ok]
    have h4 : ¬ r.1.2 > len := by omega
    simp only [h3, h4, ↓reduceIte]
    generalize sys.process_new_packets r.2 = p
    by_cases h5 : p.1 = K.RUSTLS_RESULT_OK
    swap
    · simp only [h5, not_false_eq_true, ↓reduceIte]
      refine ⟨1, _, rfl, Or.inr rfl, ?_⟩
      simp [Event.is_fed_ok, h5]
    simp only [h5, not_true_eq_false, ↓reduceIte]
    obtain ⟨res, out, hret, h01, hiff⟩ := ih p.2 (k + r.1.2) (by omega) (by omega)
    refine ⟨res, out, hret, h01, ?_⟩
    rw [hiff]
    simp [Event.is_fed_ok, h3]

/-- The copy of a slice that is not empty begins by offering the whole slice. -/
theorem copy_tls_head {σ : Type} (K : crustls_h) (sys : Sys σ) (w : σ) (buf : List Byte)
    (len : Nat) (h : 0 < len) :
    ∃ result n t, (copy_tls_bytes_into_client_session K sys w buf len).tr =
      Event.read_tls (buf.take len) result n :: t := by
  simp only [copy_tls_bytes_into_client_session, copy_tls_loop, h, ↓reduceIte, List.drop_zero,
    Nat.sub_zero]
  split_ifs
  · exact ⟨_, _, _, rfl⟩
  · exact ⟨_, _, _, rfl⟩
  · exact ⟨_, _, _, rfl⟩
  · exact ⟨_, _, _, rfl⟩
  · exact ⟨_, _, _, rfl⟩

set_option maxRecDepth 4000 in
/-- C4 (counterexample): two bytes arrive and are fed, the session reports
close_notify, and the socket read after it returns five bytes: `do_read`
returns an error and those five bytes are never offered to `read_tls`. -/
theorem bytes_after_close_notify_are_not_fed :
    (do_read codes scripted 2 data_after_close 3).tr =
      [Event.read 3 2048 2, Event.read_tls [7, 8] 0 2, Event.process_new_packets 0,
        Event.session_read 2048 7200 0, Event.read 3 2048 5] ∧
    (do_read codes scripted 2 data_after_close 3).ret = some CRUSTLS_DEMO_ERROR ∧
    accepted_by_read_tls (do_read codes scripted 2 data_after_close 3).tr = [7, 8] := by
  decide

/-- C4 (amended): let the first socket read of `do_read` return `n > 0` bytes
(at most the 2048 asked for), and let the engine, whenever it reports OK, have
accepted no more than it was offered.  Then the slice handed to
`copy_tls_bytes_into_client_session` is exactly the bytes read; the calls of
`do_read` are that read, the calls of the copy, and then calls that feed
nothing: a socket read that comes last (the one after close_notify) is not
fed, and `do_read` returns an error when it did not return 0.  The copy begins
by offering all the bytes read; every `read_tls` is offered the bytes read
from the offset reached by the counts accepted so far; the copy returns 0 or
1, and 0 exactly when every `read_tls` reported OK with a count that is not
zero and every `process_new_packets` reported OK; when it returns 0, `*out_n`
is `n` and the accepted bytes, concatenated, are the bytes read; when it
returns 1, `do_read` returns an error without any further call. -/
theorem socket_bytes_fed_exactly {σ : Type} (K : crustls_h) (sys : Sys σ) (fuel : Nat) (w : σ)
    (sockfd : Int) (r : (Int × Bool × List Byte) × σ) (c : Run σ (Int × Nat))
    (hr : sys.read w sockfd 2048 = r)
    (hc : copy_tls_bytes_into_client_session K sys r.2 (store (bzero 2048) r.1.2.2)
      r.1.1.toNat = c)
    (hn : 0 < r.1.1) (hcap : r.1.1 ≤ 2048) (hdata : r.1.2.2.length = r.1.1.toNat)
    (hengine : ∀ s offered, (sys.read_tls s offered).1.1 = K.RUSTLS_RESULT_OK →
      (sys.read_tls s offered).1.2 ≤ offered.length) :
    (store (bzero 2048) r.1.2.2).take r.1.1.toNat = r.1.2.2 ∧
    (∃ rest, (do_read K sys fuel w sockfd).tr = Event.read sockfd 2048 r.1.1 :: (c.tr ++ rest) ∧
      (∀ e ∈ rest, e.is_feed = false) ∧
      (∀ pre m, rest = pre ++ [Event.read sockfd 2048 m] → m ≠ 0 →
        (do_read K sys fuel w sockfd).ret = some CRUSTLS_DEMO_ERROR) ∧
      (∀ out, c.ret = some (1, out) →
        rest = [] ∧ (do_read K sys fuel w sockfd).ret = some CRUSTLS_DEMO_ERROR)) ∧
    (∃ result k t, c.tr = Event.read_tls r.1.2.2 result k :: t) ∧
    fed_in_order r.1.2.2 0 c.tr ∧
    (∃ res out, c.ret = some (res, out) ∧ (res = 0 ∨ res = 1) ∧
      (res = 0 ↔ ∀ e ∈ c.tr, e.is_fed_ok K = true) ∧
      (res = 0 → out = r.1.1.toNat ∧ accepted_by_read_tls c.tr = r.1.2.2)) := by
  have hslice : (store (bzero 2048) r.1.2.2).take r.1.1.toNat = r.1.2.2 := by
    rw [← hdata]
    exact store_take _ 2048 (by omega)
  obtain ⟨res, out, hret, hfed, hok⟩ := copy_tls_loop_feeds K sys
    (store (bzero 2048) r.1.2.2) r.1.1.toNat hengine (r.1.1.toNat + 1) r.2 0
    (Nat.zero_le _) (by omega)
  obtain ⟨res', out', hret', h01, hiff⟩ := copy_tls_loop_verdict K sys
    (store (bzero 2048) r.1.2.2) r.1.1.toNat hengine (r.1.1.toNat + 1) r.2 0
    (Nat.zero_le _) (by omega)
  obtain ⟨result, k, t, hhead⟩ := copy_tls_head K sys r.2 (store (bzero 2048) r.1.2.2)
    r.1.1.toNat (by omega)
  rw [hslice] at hfed hok hhead
  have hcl : copy_tls_loop K sys (store (bzero 2048) r.1.2.2) r.1.1.toNat (r.1.1.toNat + 1)
      r.2 0 = c := hc
  rw [hcl] at hret hfed hok hret' hiff
  rw [hc] at hhead
  have hres : res' = res ∧ out' = out := by
    rw [hret] at hret'
    simpa using hret'.symm
  rw [hres.1] at h01 hiff
  refine ⟨hslice, ?_, ⟨result, k, t, hhead⟩, hfed, res, out, hret, h01, hiff, fun h => ?_⟩
  · have hp : ∀ f w', ∀ e ∈ (copy_plaintext_to_stdout K sys f w').tr, e.is_feed = false :=
      fun f w' e he => is_feed_of_is_drain e (copy_plaintext_events K sys f w' e he)
    have hp2 : ∀ f w', ∀ e ∈ (copy_plaintext_to_stdout K sys f w').tr, e.is_drain = true :=
      copy_plaintext_events K sys
    simp only [do_read, hr, hc]
    have h1 : ¬ r.1.1 = 0 := by omega
    have h2 : ¬ r.1.1 < 0 := by omega
    simp only [h1, h2, ↓reduceIte, hret]
    have hnil : ∀ (pre : List Event) (m : Int), ([] : List Event) = pre ++ [Event.read sockfd 2048 m]
        → False := by
      intro pre m h; simp at h
    by_cases h4 : res = 0
    swap
    · simp only [ne_eq, h4, not_false_eq_true, ↓reduceIte]
      exact ⟨[], by simp, by simp, fun pre m h _ => (hnil pre m h).elim, fun _ _ => by simp⟩
    simp only [ne_eq, h4, not_true_eq_false, ↓reduceIte]
    have hno1 : ∀ out2, ¬ (some ((0 : Int), out) = some ((1 : Int), out2)) := by
      intro out2 h
      simp at h
    have hpc := hp fuel c.w
    have hpd := hp2 fuel c.w
    generalize copy_plaintext_to_stdout K sys fuel c.w = p at hpc hpd ⊢
    have hlastp : ∀ (pre : List Event) (m : Int), p.tr = pre ++ [Event.read sockfd 2048 m]
        → False := by
      intro pre m h
      exact not_read_of_is_drain _ (hpd _ (by rw [h]; simp)) sockfd 2048 m rfl
    rcases hpr : p.ret with _ | v
    · exact ⟨p.tr, rfl, hpc, fun pre m h _ => (hlastp pre m h).elim,
        fun o ho => (hno1 o ho).elim⟩
    by_cases h5 : v = CRUSTLS_DEMO_CLOSE_NOTIFY
    · simp only [h5, not_true_eq_false, ↓reduceIte]
      generalize sys.read p.w sockfd 2048 = r2
      have hlast : ∀ e ∈ p.tr ++ [Event.read sockfd 2048 r2.1.1], e.is_feed = false := by
        simp only [List.forall_mem_append, List.forall_mem_cons]
        exact ⟨hpc, rfl, by simp⟩
      by_cases h6 : r2.1.1 = 0
      · simp only [h6, not_true_eq_false, ↓reduceIte]
        refine ⟨p.tr ++ [Event.read sockfd 2048 0], by simp, by rw [← h6]; exact hlast,
          fun pre m h hm => ?_, fun o ho => (hno1 o ho).elim⟩
        have := List.append_inj_right' h rfl
        simp only [List.cons.injEq, Event.read.injEq, and_true, true_and] at this
        exact absurd this.symm hm
      · simp only [h6, not_false_eq_true, ↓reduceIte]
        exact ⟨p.tr ++ [Event.read sockfd 2048 r2.1.1], by simp, hlast, fun _ _ _ _ => trivial,
          fun o ho => (hno1 o ho).elim⟩
    · simp only [h5, not_false_eq_true, ↓reduceIte]
      exact ⟨p.tr, rfl, hpc, fun pre m h _ => (hlastp pre m h).elim,
        fun o ho => (hno1 o ho).elim⟩
  · obtain ⟨ho, ha⟩ := hok h
    exact ⟨ho, by simpa using ha⟩

set_option maxRecDepth 4000 in
/-- C4 (amended), at the connection that ends in a clean close: five bytes
arrive, the engine takes two and then three of them, the copy returns 0 and
the accepted bytes are the five bytes read. -/
theorem socket_bytes_fed_exactly_witness :
    0 < (scripted.read closing 3 2048).1.1 ∧
    (copy_tls_bytes_into_client_session codes scripted (scripted.read closing 3 2048).2
      (store (bzero 2048) (scripted.read closing 3 2048).1.2.2)
      (scripted.read closing 3 2048).1.1.toNat).ret = some (0, 5) ∧
    accepted_by_read_tls
      (copy_tls_bytes_into_client_session codes scripted (scripted.read closing 3 2048).2
        (store (bzero 2048) (scripted.read closing 3 2048).1.2.2)
        (scripted.read closing 3 2048).1.1.toNat).tr = [10, 11, 12, 13, 14] := by
  have hengine : ∀ (s : Script) (offered : List Byte),
      (scripted.read_tls s offered).1.1 = codes.RUSTLS_RESULT_OK →
      (scripted.read_tls s offered).1.2 ≤ offered.length :=
    fun _ _ _ => Nat.min_le_right _ _
  have h1 : 0 < (scripted.read closing 3 2048).1.1 := by decide
  have h2 : (scripted.read closing 3 2048).1.1 ≤ 2048 := by decide
  have h3 : (scripted.read closing 3 2048).1.2.2.length =
      (scripted.read closing 3 2048).1.1.toNat := by decide
  have hret : (copy_tls_bytes_into_client_session codes scripted (scripted.read closing 3 2048).2
      (store (bzero 2048) (scripted.read closing 3 2048).1.2.2)
      (scripted.read closing 3 2048).1.1.toNat).ret = some (0, 5) := by decide
  obtain ⟨res, out, hres, _, _, hok⟩ :=
    (socket_bytes_fed_exactly codes scripted 4 closing 3 _ _ rfl rfl h1 h2 h3 hengine).2.2.2.2
  rw [hret] at hres
  simp only [Option.some.injEq, Prod.mk.injEq] at hres
  exact ⟨h1, hret, (hok hres.1.symm).2⟩

set_option maxRecDepth 4000 in
/-- C5 (failing input): resolution, `socket` (descriptor 3) and `connect`
succeed and the switch to non-blocking mode fails.  `make_conn` returns 1, not
a negative value, without closing descriptor 3; `do_request` goes on to create
a session and to run the exchange on descriptor 1, and descriptor 3 is never
closed. -/
theorem nonblock_failure_is_not_reported :
    (make_conn scripted nonblock_fails [104]).val = 1 ∧
    (make_conn scripted nonblock_fails [104]).tr =
      [Event.getaddrinfo [104] 0, Event.socket 3, Event.connect 3 0, Event.fcntl_getfl 3 (-1)] ∧
    Event.session_new [104] 0 ∈ (do_request codes scripted 2 nonblock_fails [104] [47]).tr ∧
    Event.select 2 true true (-1) ∈ (do_request codes scripted 2 nonblock_fails [104] [47]).tr ∧
    Event.close 3 ∉ (do_request codes scripted 2 nonblock_fails [104] [47]).tr := by
  decide

set_option maxRecDepth 4000 in
/-- C10 (failing input): on a connection with descriptor 3 that ends in a
clean close `do_request` returns 0 and has closed descriptor 3 twice, once in
`send_request_and_read_response` and once in its own cleanup; the same holds
when the exchange fails (here `select` fails).  The session is freed once. -/
theorem socket_is_closed_twice :
    (make_conn scripted closing [104]).val = 3 ∧
    (do_request codes scripted 10 closing [104] [47]).ret = some 0 ∧
    List.count (Event.close 3) (do_request codes scripted 10 closing [104] [47]).tr = 2 ∧
    List.count (Event.session_free false) (do_request codes scripted 10 closing [104] [47]).tr = 1 ∧
    (do_request codes scripted 10 { blank with gai := (0, true) } [104] [47]).ret = some 1 ∧
    List.count (Event.close 3)
      (do_request codes scripted 10 { blank with gai := (0, true) } [104] [47]).tr = 2 := by
  decide

theorem not_config_of_is_exchange (x : Event) (h : x.is_exchange = true) :
    x.is_config = false := by
  revert h; cases x <;> simp [Event.is_exchange, Event.is_config]

theorem make_conn_events {σ : Type} (sys : Sys σ) (w : σ) (hostname : List Byte) :
    ∀ e ∈ (make_conn sys w hostname).tr, e.is_config = false := by
  simp only [make_conn, make_conn_cleanup, nonblock]
  generalize sys.getaddrinfo w hostname = g
  generalize sys.socket g.2 = s
  generalize sys.connect s.2 s.1 = c
  generalize sys.fcntl_getfl c.2 s.1 = f
  generalize sys.fcntl_setfl f.2 s.1 _ = f2
  split_ifs <;> simp [Event.is_config]

theorem send_request_events {σ : Type} (K : crustls_h) (sys : Sys σ) (fuel : Nat) (w : σ)
    (sockfd : Int) (hostname path : List Byte) :
    ∀ e ∈ (send_request_and_read_response K sys fuel w sockfd hostname path).tr,
      e.is_config = false := by
  obtain ⟨cl, hcl, htr, _⟩ := send_request_split K sys fuel w sockfd hostname path
  rw [htr]
  have hbody : ∀ e ∈ (send_request_body K sys fuel w sockfd hostname path).tr,
      e.is_config = false := by
    simp only [send_request_body]
    generalize snprintf (bzero 2048) 2048 (request_text path hostname) = buf
    generalize sys.session_write w (buf.take (strlen buf)) = r
    have hd : ∀ e ∈ (driver_loop K sys sockfd fuel r.2).tr, e.is_config = false :=
      fun e he => not_config_of_is_exchange e (driver_loop_events K sys sockfd fuel r.2 e he)
    generalize driver_loop K sys sockfd fuel r.2 = d at hd ⊢
    split_ifs
    · simp [Event.is_config]
    · simp [Event.is_config]
    · simp only [List.forall_mem_cons]
      exact ⟨rfl, hd⟩
  simp only [List.forall_mem_append]
  refine ⟨hbody, ?_⟩
  rcases hcl with h | h <;> simp [h, Event.is_config]

theorem do_request_events {σ : Type} (K : crustls_h) (sys : Sys σ) (fuel : Nat) (w : σ)
    (hostname path : List Byte) :
    ∀ e ∈ (do_request K sys fuel w hostname path).tr, e.is_config = false := by
  simp only [do_request, do_request_cleanup]
  have hmc := make_conn_events sys w hostname
  generalize make_conn sys w hostname = mc at hmc ⊢
  have hsr := send_request_events K sys fuel (sys.session_new mc.w hostname).2 mc.val
    hostname path
  generalize send_request_and_read_response K sys fuel (sys.session_new mc.w hostname).2 mc.val
    hostname path = d at hsr ⊢
  generalize sys.session_new mc.w hostname = sn
  have e1 : ∀ b, (Event.session_free b).is_config = false := fun _ => rfl
  have e2 : ∀ fd, (Event.close fd).is_config = false := fun _ => rfl
  have e3 : ∀ h r, (Event.session_new h r).is_config = false := fun _ _ => rfl
  intro e he
  have hcases : e ∈ mc.tr ∨ e ∈ d.tr ∨ (∃ b, e = Event.session_free b) ∨
      (∃ fd, e = Event.close fd) ∨ (∃ h r, e = Event.session_new h r) := by
    by_cases h1 : mc.val < 0
    · simp only [h1, ↓reduceIte] at he
      split_ifs at he <;> simp at he <;> aesop
    simp only [h1, ↓reduceIte] at he
    by_cases h2 : sn.1 = K.RUSTLS_RESULT_OK
    swap
    · simp only [ne_eq, h2, not_false_eq_true, ↓reduceIte] at he
      split_ifs at he <;> simp at he <;> aesop
    simp only [ne_eq, h2, not_true_eq_false, ↓reduceIte] at he
    rcases hr : d.ret with _ | ret
    · rw [hr] at he
      simp at he
      aesop
    · rw [hr] at he
      simp only [] at he
      split_ifs at he <;> simp at he <;> aesop
  rcases hcases with h | h | ⟨b, h⟩ | ⟨fd, h⟩ | ⟨h', r, h⟩
  · exact hmc e h
  · exact hsr e h
  · rw [h]; exact e1 b
  · rw [h]; exact e2 fd
  · rw [h]; exact e3 h' r

theorem main_loop_events {σ : Type} (K : crustls_h) (sys : Sys σ) (fuel : Nat)
    (hostname path : List Byte) :
    ∀ (left : Nat) (w : σ),
      ∀ e ∈ (main_loop K sys fuel hostname path left w).tr, e.is_config = false := by
  intro left
  induction left with
  | zero => intro w e he; simp [main_loop] at he
  | succ left ih =>
    intro w
    simp only [main_loop]
    have hd := do_request_events K sys fuel w hostname path
    have hk := ih (do_request K sys fuel w hostname path).w
    generalize main_loop K sys fuel hostname path left (do_request K sys fuel w hostname path).w
      = k at hk ⊢
    generalize do_request K sys fuel w hostname path = d at hd ⊢
    rcases hr : d.ret with _ | result
    · exact hd
    · simp only []
      split_ifs
      · exact hd
      · simp only [List.forall_mem_append]
        exact ⟨hd, hk⟩

theorem count_eq_zero_of_not_config (tr : List Event) (h : ∀ e ∈ tr, e.is_config = false) :
    List.count Event.set_certificate_verifier tr = 0 := by
  apply List.count_eq_zero_of_not_mem
  intro hmem
  have := h _ hmem
  simp [Event.is_config] at this

/-- C6 (counterexample): with `NO_CHECK_CERTIFICATE` set to the empty string
the custom verifier is installed. -/
theorem empty_variable_installs_verifier :
    scripted.getenv { blank with env := some [] } "NO_CHECK_CERTIFICATE" = some [] ∧
    Event.set_certificate_verifier ∈
      (main codes scripted 1 { blank with env := some [] } argv_h).tr := by
  decide

/-- C6 (amended): `main` installs the custom verifier exactly once when it is
given at least two arguments, the trust roots load, and `getenv` finds
`NO_CHECK_CERTIFICATE` in the environment, whatever its value (the empty
string included); otherwise it never installs it. -/
theorem verifier_installed_iff_variable_present {σ : Type} (K : crustls_h) (sys : Sys σ)
    (fuel : Nat) (w : σ) (argv : List (List Byte)) :
    List.count Event.set_certificate_verifier (main K sys fuel w argv).tr =
      if 2 < argv.length ∧ (sys.load_native_roots w).1 = K.RUSTLS_RESULT_OK ∧
        (sys.getenv (sys.load_native_roots w).2 "NO_CHECK_CERTIFICATE").isSome = true
      then 1 else 0 := by
  simp only [main, main_config]
  by_cases h0 : argv.length ≤ 2
  · have : ¬ 2 < argv.length := by omega
    simp [h0, this]
  have h0' : 2 < argv.length := by omega
  simp only [h0, h0', ↓reduceIte, true_and]
  generalize sys.load_native_roots w = l
  by_cases h1 : l.1 = K.RUSTLS_RESULT_OK
  swap
  · simp [h1]
  have hk : ∀ h p, List.count Event.set_certificate_verifier
      (main_loop K sys fuel h p 3 l.2).tr = 0 :=
    fun h p => count_eq_zero_of_not_config _ (main_loop_events K sys fuel h p 3 l.2)
  by_cases h2 : (sys.getenv l.2 "NO_CHECK_CERTIFICATE").isSome = true
  · simp only [ne_eq, h1, h2, not_true_eq_false, ↓reduceIte, and_self]
    split <;> simp [List.count_cons, List.count_append, hk]
  · have h2' : (sys.getenv l.2 "NO_CHECK_CERTIFICATE").isSome = false := by simpa using h2
    simp only [ne_eq, h1, h2', not_true_eq_false, ↓reduceIte, and_false, Bool.false_eq_true]
    split <;> simp [List.count_cons, List.count_append, hk]

/-- C8: with at most one positional argument `main` returns 1 and makes no
call at all.  With two or more and the trust roots loaded, consider the runs
of `do_request` started one after the other from the world the configuration
leaves.  `main` returns 0 exactly when the first three runs all return 0, and
its calls are then the configuration, those three runs and the release of the
configuration.  When run `k` (of the first three) is the first to return a
value other than 0, `main` returns 1 and its calls are the configuration, the
runs up to and including run `k`, and the release of the configuration:
nothing of a later run. -/
theorem main_iterations {σ : Type} (K : crustls_h) (sys : Sys σ) (fuel : Nat) (w : σ)
    (argv : List (List Byte)) :
    (argv.length ≤ 2 →
      (main K sys fuel w argv).ret = some 1 ∧ (main K sys fuel w argv).tr = []) ∧
    (2 < argv.length → (sys.load_native_roots w).1 = K.RUSTLS_RESULT_OK →
      ((main K sys fuel w argv).ret = some 0 ↔
        ∀ i < 3, (request_run K sys fuel (argv.getD 1 []) (argv.getD 2 []) i
          (main_config K sys w).w).ret = some 0) ∧
      ((∀ i < 3, (request_run K sys fuel (argv.getD 1 []) (argv.getD 2 []) i
          (main_config K sys w).w).ret = some 0) →
        (main K sys fuel w argv).tr = (main_config K sys w).tr ++
          request_traces K sys fuel (argv.getD 1 []) (argv.getD 2 []) 3 (main_config K sys w).w
          ++ [Event.config_free]) ∧
      (∀ k < 3,
        (∀ i < k, (request_run K sys fuel (argv.getD 1 []) (argv.getD 2 []) i
          (main_config K sys w).w).ret = some 0) →
        ∀ v, (request_run K sys fuel (argv.getD 1 []) (argv.getD 2 []) k
          (main_config K sys w).w).ret = some v → v ≠ 0 →
        (main K sys fuel w argv).ret = some 1 ∧
        (main K sys fuel w argv).tr = (main_config K sys w).tr ++
          request_traces K sys fuel (argv.getD 1 []) (argv.getD 2 []) (k + 1)
            (main_config K sys w).w ++ [Event.config_free])) := by
  refine ⟨fun h => by simp [main, h], fun hargs hroots => ?_⟩
  have h0 : ¬ argv.length ≤ 2 := by omega
  have hc : (main_config K sys w).val = K.RUSTLS_RESULT_OK := by
    simp only [main_config, hroots]
    split_ifs <;> simp_all
  have h3 : ∀ P : Nat → Prop, (∀ i < 3, P i) ↔ P 0 ∧ P 1 ∧ P 2 := by
    intro P
    constructor
    · intro h; exact ⟨h 0 (by omega), h 1 (by omega), h 2 (by omega)⟩
    · rintro ⟨a, b, c⟩ i hi
      interval_cases i <;> assumption
  have hall : ∀ (P : Nat → Prop), (∀ i < 1, P i) ↔ P 0 := by
    intro P
    constructor
    · intro h; exact h 0 (by omega)
    · intro h i hi
      interval_cases i; exact h
  have hall2 : ∀ (P : Nat → Prop), (∀ i < 2, P i) ↔ P 0 ∧ P 1 := by
    intro P
    constructor
    · intro h; exact ⟨h 0 (by omega), h 1 (by omega)⟩
    · rintro ⟨a, b⟩ i hi
      interval_cases i <;> assumption
  simp only [main, h0, hc, ↓reduceIte, ne_eq, not_true_eq_false, main_loop, h3, hall, hall2,
    request_run, request_traces, List.nil_append, Nat.not_lt_zero, false_imp_iff, implies_true,
    true_imp_iff]
  generalize (main_config K sys w).tr = ctr
  generalize (main_config K sys w).w = w0
  generalize argv.getD 1 [] = hostname
  generalize argv.getD 2 [] = path
  generalize do_request K sys fuel w0 hostname path = r1
  generalize do_request K sys fuel r1.w hostname path = r2
  generalize do_request K sys fuel r2.w hostname path = r3
  rcases hr1 : r1.ret with _ | v1
  · simp
  by_cases hv1 : v1 = 0
  swap
  · simp [hv1]
  subst hv1
  rcases hr2 : r2.ret with _ | v2
  · simp
  by_cases hv2 : v2 = 0
  swap
  · simp [hv2]
  subst hv2
  rcases hr3 : r3.ret with _ | v3
  · simp
  by_cases hv3 : v3 = 0
  · simp [hv3]
  · simp [hv3]

/-- C8, at a command line with two arguments whose first request fails at
name resolution: one run of `do_request`, exit status 1. -/
theorem main_iterations_witness :
    2 < argv_h.length ∧ (scripted.load_native_roots blank).1 = codes.RUSTLS_RESULT_OK ∧
    (main codes scripted 0 blank argv_h).ret = some 1 :=
  ⟨by decide, by decide,
    (((main_iterations codes scripted 0 blank argv_h).2 (by decide) (by decide)).2.2 0
      (by decide) (fun _ h => absurd h (Nat.not_lt_zero _)) 1 (by decide) (by decide)).1⟩

theorem c_str_no_nul (p : List Byte) : ∀ b ∈ c_str p, b ≠ 0 := by
  intro b hb
  have := List.mem_takeWhile_imp hb
  simpa using this

theorem c_str_stop (a rest : List Byte) (ha : ∀ b ∈ a, b ≠ 0) : c_str (a ++ 0 :: rest) = a := by
  unfold c_str
  rw [List.takeWhile_append_of_pos (fun b hb => by simpa using ha b hb)]
  simp

theorem request_text_no_nul (path hostname : List Byte) :
    ∀ b ∈ request_text path hostname, b ≠ 0 := by
  have h1 : ∀ b ∈ str "GET ", b ≠ 0 := by decide
  have h2 : ∀ b ∈ str " HTTP/1.1\r\nHost: ", b ≠ 0 := by decide
  have h3 : ∀ b ∈ str "\r\nUser-Agent: crustls-demo\r\nAccept: carcinization/inevitable, text/html\r\nConnection: close\r\n\r\n", b ≠ 0 := by decide
  intro b hb
  simp only [request_text, List.mem_append] at hb
  rcases hb with (((hb | hb) | hb) | hb) | hb
  · exact h1 b hb
  · exact c_str_no_nul path b hb
  · exact h2 b hb
  · exact c_str_no_nul hostname b hb
  · exact h3 b hb

/-- What `snprintf` leaves in a zeroed 2 KiB array, read back as a C string:
the first 2047 bytes of a NUL-free text. -/
theorem snprintf_c_str (out : List Byte) (h : ∀ b ∈ out, b ≠ 0) :
    c_str (snprintf (bzero 2048) 2048 out) = out.take 2047 ∧
    (snprintf (bzero 2048) 2048 out).take (strlen (snprintf (bzero 2048) 2048 out))
      = out.take 2047 := by
  have hlen : (out.take 2047).length ≤ 2047 := by
    simp only [List.length_take]; omega
  have ht : ∀ b ∈ out.take 2047, b ≠ 0 := fun b hb => h b (List.mem_of_mem_take hb)
  have hbuf : ∃ rest, snprintf (bzero 2048) 2048 out = out.take 2047 ++ 0 :: rest := by
    refine ⟨(bzero 2048).drop ((out.take 2047).length + 1), ?_⟩
    simp only [snprintf, Nat.add_one_sub_one]
    rw [store_eq _ _ (by rw [bzero_length, List.length_append, List.length_singleton]; omega)]
    simp
  obtain ⟨rest, hrest⟩ := hbuf
  have hc : c_str (snprintf (bzero 2048) 2048 out) = out.take 2047 := by
    rw [hrest]; exact c_str_stop _ _ ht
  refine ⟨hc, ?_⟩
  rw [strlen, hc, hrest]
  exact List.take_left _ _

/-- The body of the exchange in terms of the bytes it offers. -/
theorem send_request_body_eq {σ : Type} (K : crustls_h) (sys : Sys σ) (fuel : Nat) (w : σ)
    (sockfd : Int) (hostname path : List Byte) :
    send_request_body K sys fuel w sockfd hostname path =
      if (sys.session_write w ((request_text path hostname).take 2047)).1.1 ≠ K.RUSTLS_RESULT_OK
      then ⟨some 1, (sys.session_write w ((request_text path hostname).take 2047)).2,
        [Event.session_write ((request_text path hostname).take 2047)
          (sys.session_write w ((request_text path hostname).take 2047)).1.1
          (sys.session_write w ((request_text path hostname).take 2047)).1.2]⟩
      else if (sys.session_write w ((request_text path hostname).take 2047)).1.2 ≠
          ((request_text path hostname).take 2047).length
      then ⟨some 1, (sys.session_write w ((request_text path hostname).take 2047)).2,
        [Event.session_write ((request_text path hostname).take 2047)
          (sys.session_write w ((request_text path hostname).take 2047)).1.1
          (sys.session_write w ((request_text path hostname).take 2047)).1.2]⟩
      else ⟨(driver_loop K sys sockfd fuel
            (sys.session_write w ((request_text path hostname).take 2047)).2).ret,
          (driver_loop K sys sockfd fuel
            (sys.session_write w ((request_text path hostname).take 2047)).2).w,
          Event.session_write ((request_text path hostname).take 2047)
            (sys.session_write w ((request_text path hostname).take 2047)).1.1
            (sys.session_write w ((request_text path hostname).take 2047)).1.2 ::
          (driver_loop K sys sockfd fuel
            (sys.session_write w ((request_text path hostname).take 2047)).2).tr⟩ := by
  obtain ⟨hc, hoff⟩ := snprintf_c_str (request_text path hostname)
    (request_text_no_nul path hostname)
  have hlen : strlen (snprintf (bzero 2048) 2048 (request_text path hostname)) =
      ((request_text path hostname).take 2047).length := by
    rw [strlen, hc]
  simp only [send_request_body, hoff]
  simp only [hlen]

/-- The exchange begins with the one `rustls_client_session_write`, offered
the first 2047 bytes of the request text; every later call is a call of the
driver loop or the final `close`; and when the engine does not report OK with
the whole offer accepted, the function returns 1 having made no other call
than that `close`. -/
theorem send_request_head {σ : Type} (K : crustls_h) (sys : Sys σ) (fuel : Nat) (w : σ)
    (sockfd : Int) (hostname path : List Byte) :
    ∃ rest, (send_request_and_read_response K sys fuel w sockfd hostname path).tr =
        Event.session_write ((request_text path hostname).take 2047)
          (sys.session_write w ((request_text path hostname).take 2047)).1.1
          (sys.session_write w ((request_text path hostname).take 2047)).1.2 :: rest ∧
      (∀ e ∈ rest, e.is_exchange = true ∨ e = Event.close sockfd) ∧
      (((sys.session_write w ((request_text path hostname).take 2047)).1.1 ≠ K.RUSTLS_RESULT_OK ∨
        (sys.session_write w ((request_text path hostname).take 2047)).1.2 ≠
          ((request_text path hostname).take 2047).length) →
        (send_request_and_read_response K sys fuel w sockfd hostname path).ret = some 1 ∧
        (rest = [] ∨ rest = [Event.close sockfd])) := by
  simp only [send_request_and_read_response, send_request_body_eq]
  generalize (request_text path hostname).take 2047 = offered
  generalize sys.session_write w offered = r
  have hd := driver_loop_events K sys sockfd fuel r.2
  generalize driver_loop K sys sockfd fuel r.2 = d at hd ⊢
  by_cases h1 : r.1.1 = K.RUSTLS_RESULT_OK
  swap
  · simp only [ne_eq, h1, not_false_eq_true, ↓reduceIte, true_or, true_implies]
    split_ifs
    · exact ⟨[Event.close sockfd], rfl, by simp, rfl, Or.inr rfl⟩
    · exact ⟨[], rfl, by simp, rfl, Or.inl rfl⟩
  by_cases h2 : r.1.2 = offered.length
  swap
  · simp only [ne_eq, h1, h2, not_true_eq_false, not_false_eq_true, ↓reduceIte, or_true,
      true_implies]
    split_ifs
    · exact ⟨[Event.close sockfd], rfl, by simp, rfl, Or.inr rfl⟩
    · exact ⟨[], rfl, by simp, rfl, Or.inl rfl⟩
  simp only [ne_eq, h1, h2, not_true_eq_false, ↓reduceIte, or_self, false_implies, and_true]
  rcases hr : d.ret with _ | ret
  · exact ⟨d.tr, rfl, fun e he => Or.inl (hd e he)⟩
  · simp only []
    split_ifs
    · refine ⟨d.tr ++ [Event.close sockfd], by simp, fun e he => ?_⟩
      simp only [List.mem_append, List.mem_singleton] at he
      rcases he with he | he
      · exact Or.inl (hd e he)
      · exact Or.inr he
    · exact ⟨d.tr, rfl, fun e he => Or.inl (hd e he)⟩

/-- C7 (amended): the request text is the format of the source filled in with
the path and the host name as they are; the session is offered, in the one
`rustls_client_session_write` of the exchange, the first 2047 bytes of that
text, which is the whole text when it has at most 2047 bytes; and when the
engine reports an error or accepts a count other than the length of the offer,
the function returns 1 and its only other call is the final `close`. -/
theorem request_is_injected_in_one_call {σ : Type} (K : crustls_h) (sys : Sys σ) (fuel : Nat)
    (w : σ) (sockfd : Int) (hostname path : List Byte) :
    request_text path hostname =
      str "GET " ++ c_str path ++ str " HTTP/1.1\r\nHost: " ++ c_str hostname ++
        str "\r\nUser-Agent: crustls-demo\r\nAccept: carcinization/inevitable, text/html\r\nConnection: close\r\n\r\n" ∧
    ((request_text path hostname).length ≤ 2047 →
      (request_text path hostname).take 2047 = request_text path hostname) ∧
    ∃ rest, (send_request_and_read_response K sys fuel w sockfd hostname path).tr =
        Event.session_write ((request_text path hostname).take 2047)
          (sys.session_write w ((request_text path hostname).take 2047)).1.1
          (sys.session_write w ((request_text path hostname).take 2047)).1.2 :: rest ∧
      (∀ e ∈ rest, ∀ offered res n, e ≠ Event.session_write offered res n) ∧
      (((sys.session_write w ((request_text path hostname).take 2047)).1.1 ≠ K.RUSTLS_RESULT_OK ∨
        (sys.session_write w ((request_text path hostname).take 2047)).1.2 ≠
          ((request_text path hostname).take 2047).length) →
        (send_request_and_read_response K sys fuel w sockfd hostname path).ret = some 1 ∧
        (rest = [] ∨ rest = [Event.close sockfd])) := by
  refine ⟨rfl, fun h => List.take_of_length_le h, ?_⟩
  obtain ⟨rest, h1, h2, h3⟩ := send_request_head K sys fuel w sockfd hostname path
  refine ⟨rest, h1, fun e he offered res n heq => ?_, h3⟩
  rcases h2 e he with h | h
  · rw [heq] at h
    simp [Event.is_exchange] at h
  · rw [heq] at h
    simp at h

theorem c_str_replicate (n : Nat) : c_str (List.replicate n 97) = List.replicate n 97 := by
  unfold c_str
  rw [List.takeWhile_replicate]
  simp

theorem long_request_length : (request_text (List.replicate 2048 97) [104]).length = 2164 := by
  simp only [request_text, List.length_append, c_str_replicate, List.length_replicate]
  decide

/-- C7 (counterexample): for a path of 2048 bytes the session is offered 2047
bytes, not the request, which has 2164. -/
theorem long_request_is_cut :
    ∃ res n rest,
      (send_request_and_read_response codes scripted 0 blank 3 [104] (List.replicate 2048 97)).tr
        = Event.session_write ((request_text (List.replicate 2048 97) [104]).take 2047) res n
          :: rest ∧
      ((request_text (List.replicate 2048 97) [104]).take 2047).length = 2047 ∧
      (request_text (List.replicate 2048 97) [104]).length = 2164 ∧
      (request_text (List.replicate 2048 97) [104]).take 2047 ≠
        request_text (List.replicate 2048 97) [104] := by
  obtain ⟨rest, h, _⟩ := send_request_head codes scripted 0 blank 3 [104] (List.replicate 2048 97)
  have hlen : ((request_text (List.replicate 2048 97) [104]).take 2047).length = 2047 := by
    rw [List.length_take, long_request_length]
    decide
  refine ⟨_, _, rest, h, hlen, long_request_length, fun heq => ?_⟩
  rw [heq, long_request_length] at hlen
  exact absurd hlen (by decide)

theorem copy_plaintext_ret {σ : Type} (K : crustls_h) (sys : Sys σ) :
    ∀ (fuel : Nat) (w : σ),
      (copy_plaintext_to_stdout K sys fuel w).ret = none ∨
      (copy_plaintext_to_stdout K sys fuel w).ret = some CRUSTLS_DEMO_OK ∨
      (copy_plaintext_to_stdout K sys fuel w).ret = some CRUSTLS_DEMO_ERROR ∨
      (copy_plaintext_to_stdout K sys fuel w).ret = some CRUSTLS_DEMO_CLOSE_NOTIFY := by
  intro fuel
  induction fuel with
  | zero => intro w; exact Or.inl rfl
  | succ fuel ih =>
    intro w
    simp only [copy_plaintext_to_stdout]
    generalize write_all sys (sys.session_read w 2048).2 STDOUT_FILENO
      (store (bzero 2048) (sys.session_read w 2048).1.2.2)
      (int_of_size_t (sys.session_read w 2048).1.2.1) = wa
    generalize sys.session_read w 2048 = r
    by_cases h1 : r.1.1 = K.RUSTLS_RESULT_ALERT_CLOSE_NOTIFY
    · simp [h1]
    simp only [h1, ↓reduceIte]
    by_cases h2 : r.1.1 = K.RUSTLS_RESULT_OK
    swap
    · simp [h2]
    simp only [ne_eq, h2, not_true_eq_false, ↓reduceIte]
    by_cases h3 : r.1.2.1 = 0
    · simp [h3]
    simp only [h3, ↓reduceIte]
    rcases hw : wa.ret with _ | res
    · exact Or.inl rfl
    · by_cases h4 : res = 0
      · simp only [h4, ne_eq, not_true_eq_false, ↓reduceIte]
        exact ih wa.w
      · simp [h4]

/-- A `do_read` that reports would-block made one call: a socket read that
returned a negative value with `errno` at `EAGAIN` or `EWOULDBLOCK`. -/
theorem do_read_again {σ : Type} (K : crustls_h) (sys : Sys σ) (fuel : Nat) (w : σ)
    (sockfd : Int) (h : (do_read K sys fuel w sockfd).ret = some CRUSTLS_DEMO_AGAIN) :
    (sys.read w sockfd 2048).1.1 < 0 ∧ (sys.read w sockfd 2048).1.2.1 = true ∧
    (do_read K sys fuel w sockfd).tr = [Event.read sockfd 2048 (sys.read w sockfd 2048).1.1] ∧
    (do_read K sys fuel w sockfd).w = (sys.read w sockfd 2048).2 := by
  simp only [do_read] at h ⊢
  generalize copy_tls_bytes_into_client_session K sys (sys.read w sockfd 2048).2
    (store (bzero 2048) (sys.read w sockfd 2048).1.2.2) (sys.read w sockfd 2048).1.1.toNat
    = c at h ⊢
  generalize sys.read w sockfd 2048 = r at h ⊢
  have hp := copy_plaintext_ret K sys fuel c.w
  generalize copy_plaintext_to_stdout K sys fuel c.w = p at h hp ⊢
  generalize sys.read p.w sockfd 2048 = r2 at h ⊢
  by_cases h1 : r.1.1 = 0
  · simp [h1, CRUSTLS_DEMO_EOF, CRUSTLS_DEMO_AGAIN] at h
  simp only [h1, ↓reduceIte] at h ⊢
  by_cases h2 : r.1.1 < 0
  · simp only [h2, ↓reduceIte] at h ⊢
    by_cases h3 : r.1.2.1 = true
    · simp [h3]
    · simp [h3, CRUSTLS_DEMO_ERROR, CRUSTLS_DEMO_AGAIN] at h
  exfalso
  simp only [h2, ↓reduceIte] at h
  rcases hcr : c.ret with _ | ⟨result, out⟩
  · rw [hcr] at h; simp at h
  rw [hcr] at h
  simp only [] at h
  by_cases h4 : result = 0
  swap
  · simp [h4, CRUSTLS_DEMO_ERROR, CRUSTLS_DEMO_AGAIN] at h
  simp only [ne_eq, h4, not_true_eq_false, ↓reduceIte] at h
  rcases hpr : p.ret with _ | res
  · rw [hpr] at h; simp at h
  rw [hpr] at h hp
  simp only [] at h
  by_cases h5 : res = CRUSTLS_DEMO_CLOSE_NOTIFY
  · simp only [h5, not_true_eq_false, ↓reduceIte] at h
    by_cases h6 : r2.1.1 = 0
    · simp [h6, CRUSTLS_DEMO_CLOSE_NOTIFY, CRUSTLS_DEMO_AGAIN] at h
    · simp [h6, CRUSTLS_DEMO_ERROR, CRUSTLS_DEMO_AGAIN] at h
  · simp only [h5, not_false_eq_true, ↓reduceIte, Option.some.injEq] at h
    rw [h] at hp
    simp [CRUSTLS_DEMO_OK, CRUSTLS_DEMO_ERROR, CRUSTLS_DEMO_AGAIN, CRUSTLS_DEMO_CLOSE_NOTIFY] at hp

theorem read_run_again {σ : Type} (K : crustls_h) (sys : Sys σ) (sockfd : Int) (F k : Nat)
    (w : σ) (h : (read_run K sys sockfd F k w).ret = some CRUSTLS_DEMO_AGAIN) :
    (sys.read (read_start K sys sockfd F k w) sockfd 2048).1.1 < 0 ∧
    (sys.read (read_start K sys sockfd F k w) sockfd 2048).1.2.1 = true ∧
    (read_run K sys sockfd F k w).tr =
      [Event.read sockfd 2048 (sys.read (read_start K sys sockfd F k w) sockfd 2048).1.1] := by
  cases k with
  | zero =>
    rw [read_run] at h ⊢
    rw [read_start]
    obtain ⟨hn, hf, htr, _⟩ := do_read_again K sys F w sockfd h
    exact ⟨hn, hf, htr⟩
  | succ k =>
    rw [read_run] at h ⊢
    rw [read_start]
    obtain ⟨hn, hf, htr, _⟩ := do_read_again K sys _ _ sockfd h
    exact ⟨hn, hf, htr⟩

theorem read_run_succ {σ : Type} (K : crustls_h) (sys : Sys σ) (sockfd : Int) (F : Nat) (w : σ) :
    ∀ i, read_run K sys sockfd (F + 1) (i + 1) w =
      read_run K sys sockfd F i (do_read K sys (F + 1) w sockfd).w := by
  intro i
  induction i with
  | zero => simp [read_run]
  | succ i ih =>
    rw [read_run, ih]
    conv_rhs => rw [read_run]
    have : F + 1 - (i + 1 + 1) = F - (i + 1) := by omega
    rw [this]

theorem read_traces_succ {σ : Type} (K : crustls_h) (sys : Sys σ) (sockfd : Int) (F : Nat)
    (w : σ) : ∀ k, read_traces K sys sockfd (F + 1) (k + 1) w =
      (do_read K sys (F + 1) w sockfd).tr ++
        read_traces K sys sockfd F k (do_read K sys (F + 1) w sockfd).w := by
  intro k
  induction k with
  | zero => simp [read_traces, read_run]
  | succ k ih =>
    rw [read_traces, ih, read_run_succ]
    conv_rhs => rw [read_traces]
    rw [List.append_assoc]

/-- The read phase is a run of `do_read` calls, each started in the world the
one before left: all but the last return OK, and the last one decides where
the phase jumps. -/
theorem read_phase_runs {σ : Type} (K : crustls_h) (sys : Sys σ) (sockfd : Int) :
    ∀ (F : Nat) (w : σ) (j : Jump), (read_phase K sys sockfd (F + 1) w).ret = some j →
      ∃ k v, k ≤ F ∧ (∀ i < k, (read_run K sys sockfd F i w).ret = some CRUSTLS_DEMO_OK) ∧
        (read_run K sys sockfd F k w).ret = some v ∧ v ≠ CRUSTLS_DEMO_OK ∧
        j = (if v = CRUSTLS_DEMO_AGAIN then Jump.fallthrough
          else if v = CRUSTLS_DEMO_CLOSE_NOTIFY then Jump.cleanup 0 else Jump.cleanup 1) ∧
        (read_phase K sys sockfd (F + 1) w).tr = read_traces K sys sockfd F (k + 1) w ∧
        (read_phase K sys sockfd (F + 1) w).w = (read_run K sys sockfd F k w).w := by
  intro F
  induction F with
  | zero =>
    intro w j h
    simp only [read_phase] at h ⊢
    generalize hd : do_read K sys 0 w sockfd = d at h ⊢
    rcases hr : d.ret with _ | v
    · rw [hr] at h; simp at h
    rw [hr] at h
    simp only [] at h ⊢
    have hrun : (read_run K sys sockfd 0 0 w) = d := by rw [read_run, hd]
    have htr : read_traces K sys sockfd 0 (0 + 1) w = d.tr := by
      simp [read_traces, hrun]
    by_cases h1 : v = CRUSTLS_DEMO_AGAIN
    · simp only [h1, ↓reduceIte, Option.some.injEq] at h ⊢
      refine ⟨0, CRUSTLS_DEMO_AGAIN, Nat.le_refl _, fun i hi => absurd hi (Nat.not_lt_zero _),
        by rw [hrun, hr, h1], by decide, by simp [h], by rw [htr], by rw [hrun]⟩
    simp only [h1, ↓reduceIte] at h ⊢
    by_cases h2 : v = CRUSTLS_DEMO_CLOSE_NOTIFY
    · simp only [h2, ↓reduceIte, Option.some.injEq] at h ⊢
      refine ⟨0, CRUSTLS_DEMO_CLOSE_NOTIFY, Nat.le_refl _,
        fun i hi => absurd hi (Nat.not_lt_zero _), by rw [hrun, hr, h2], by decide,
        by simp [← h, CRUSTLS_DEMO_CLOSE_NOTIFY, CRUSTLS_DEMO_AGAIN], by rw [htr], by rw [hrun]⟩
    simp only [h2, ↓reduceIte] at h ⊢
    by_cases h3 : v = CRUSTLS_DEMO_OK
    · simp [h3, read_phase] at h
    simp only [ne_eq, h3, not_false_eq_true, ↓reduceIte, Option.some.injEq] at h ⊢
    exact ⟨0, v, Nat.le_refl _, fun i hi => absurd hi (Nat.not_lt_zero _), by rw [hrun, hr],
      h3, by simp [← h, h1, h2], by rw [htr], by rw [hrun]⟩
  | succ F ih =>
    intro w j h
    rw [read_phase] at h ⊢
    have ih' := ih (do_read K sys (F + 1) w sockfd).w j
    have hshift := read_run_succ K sys sockfd F w
    have htshift := read_traces_succ K sys sockfd F w
    have hrun0 : read_run K sys sockfd (F + 1) 0 w = do_read K sys (F + 1) w sockfd := by
      rw [read_run]
    generalize hd : do_read K sys (F + 1) w sockfd = d at h ih' hshift htshift hrun0 ⊢
    have htr0 : read_traces K sys sockfd (F + 1) (0 + 1) w = d.tr := by
      simp [read_traces, hrun0]
    rcases hr : d.ret with _ | v
    · rw [hr] at h; simp at h
    rw [hr] at h
    simp only [] at h ⊢
    by_cases h1 : v = CRUSTLS_DEMO_AGAIN
    · simp only [h1, ↓reduceIte, Option.some.injEq] at h ⊢
      refine ⟨0, CRUSTLS_DEMO_AGAIN, Nat.zero_le _, fun i hi => absurd hi (Nat.not_lt_zero _),
        by rw [hrun0, hr, h1], by decide, by simp [h], by rw [htr0], by rw [hrun0]⟩
    simp only [h1, ↓reduceIte] at h ⊢
    by_cases h2 : v = CRUSTLS_DEMO_CLOSE_NOTIFY
    · simp only [h2, ↓reduceIte, Option.some.injEq] at h ⊢
      refine ⟨0, CRUSTLS_DEMO_CLOSE_NOTIFY, Nat.zero_le _,
        fun i hi => absurd hi (Nat.not_lt_zero _), by rw [hrun0, hr, h2], by decide,
        by simp [← h, CRUSTLS_DEMO_CLOSE_NOTIFY, CRUSTLS_DEMO_AGAIN], by rw [htr0],
        by rw [hrun0]⟩
    simp only [h2, ↓reduceIte] at h ⊢
    by_cases h3 : v = CRUSTLS_DEMO_OK
    swap
    · simp only [ne_eq, h3, not_false_eq_true, ↓reduceIte, Option.some.injEq] at h ⊢
      exact ⟨0, v, Nat.zero_le _, fun i hi => absurd hi (Nat.not_lt_zero _), by rw [hrun0, hr],
        h3, by simp [← h, h1, h2], by rw [htr0], by rw [hrun0]⟩
    simp only [ne_eq, h3, not_true_eq_false, ↓reduceIte] at h ⊢
    obtain ⟨k, v', hk, hall, hlast, hne, hj, htr, hw⟩ := ih' h
    refine ⟨k + 1, v', by omega, fun i hi => ?_, by rw [hshift]; exact hlast, hne, hj,
      by rw [htshift, htr], by rw [hshift]; exact hw⟩
    cases i with
    | zero => rw [hrun0, hr, h3]
    | succ i => rw [hshift]; exact hall i (by omega)

/-- C9: in a pass of the driver loop in which `select` succeeds, reports the
socket readable and writable, and the session wants to read: (1) the read
phase, when it ends, is a run of `do_read` calls, each started in the world
the one before left, of which all but the last returned OK; the last one
decides the jump, and the phase falls through exactly when the last `do_read`
reported would-block, the only call of that `do_read` being a socket read
that returned a negative value with `errno` at `EAGAIN` or `EWOULDBLOCK`; (2) the calls of the pass are `select`, the
`wants_read` query, all the calls of the read phase (calls of the read phase
only: no `wants_write` query, no `write_tls`), and then, only when the read
phase fell through, the `wants_write` query made in the world the read phase
left; when it answers yes the write phase follows: one `write_tls` and, when
that produced bytes, the calls of one `write_all` of the produced bytes and
count; a `write_tls` that reports OK with zero bytes makes the pass jump to
`cleanup` with 1, so the loop returns 1. -/
theorem read_phase_runs_before_write_phase {σ : Type} (K : crustls_h) (sys : Sys σ)
    (fuel : Nat) (w : σ) (sockfd : Int)
    (s : (Int × Bool × Bool) × σ) (q : Bool × σ) (rp : Run σ Jump) (q2 : Bool × σ)
    (t : (Int × Nat × List Byte) × σ)
    (hs : sys.select w (sockfd + 1) = s)
    (hq : sys.wants_read s.2 = q)
    (hrp : read_phase K sys sockfd fuel q.2 = rp)
    (hq2 : sys.wants_write rp.w = q2)
    (ht : sys.write_tls q2.2 2048 = t)
    (hsel : s.1.1 ≠ -1) (hreadable : s.1.2.1 = true) (hwritable : s.1.2.2 = true)
    (hwant : q.1 = true) :
    (∀ j, rp.ret = some j → ∃ F k v, fuel = F + 1 ∧ k ≤ F ∧
      (∀ i < k, (read_run K sys sockfd F i q.2).ret = some CRUSTLS_DEMO_OK) ∧
      (read_run K sys sockfd F k q.2).ret = some v ∧ v ≠ CRUSTLS_DEMO_OK ∧
      j = (if v = CRUSTLS_DEMO_AGAIN then Jump.fallthrough
        else if v = CRUSTLS_DEMO_CLOSE_NOTIFY then Jump.cleanup 0 else Jump.cleanup 1) ∧
      rp.tr = read_traces K sys sockfd F (k + 1) q.2 ∧
      rp.w = (read_run K sys sockfd F k q.2).w ∧
      (v = CRUSTLS_DEMO_AGAIN →
        (sys.read (read_start K sys sockfd F k q.2) sockfd 2048).1.1 < 0 ∧
        (sys.read (read_start K sys sockfd F k q.2) sockfd 2048).1.2.1 = true ∧
        (read_run K sys sockfd F k q.2).tr =
          [Event.read sockfd 2048 (sys.read (read_start K sys sockfd F k q.2) sockfd 2048).1.1])) ∧
    ∃ rest, (driver_pass K sys fuel w sockfd).tr =
        Event.select (sockfd + 1) true true s.1.1 :: Event.wants_read true :: (rp.tr ++ rest) ∧
      (∀ e ∈ rp.tr, e.is_read_phase = true) ∧
      (rp.ret ≠ some Jump.fallthrough →
        rest = [] ∧ (driver_pass K sys fuel w sockfd).ret = rp.ret) ∧
      (rp.ret = some Jump.fallthrough →
        (q2.1 = false → rest = [Event.wants_write false] ∧
          (driver_pass K sys fuel w sockfd).ret = some Jump.fallthrough) ∧
        (q2.1 = true →
          (∃ wrest, rest = Event.wants_write true :: Event.write_tls 2048 t.1.1 t.1.2.1 :: wrest ∧
            (wrest = [] ∨ wrest = (write_all sys t.2 sockfd (store (bzero 2048) t.1.2.2)
              (int_of_size_t t.1.2.1)).tr) ∧
            ((t.1.1 = K.RUSTLS_RESULT_OK ∧ t.1.2.1 ≠ 0) →
              wrest = (write_all sys t.2 sockfd (store (bzero 2048) t.1.2.2)
                (int_of_size_t t.1.2.1)).tr)) ∧
          (t.1.1 = K.RUSTLS_RESULT_OK → t.1.2.1 = 0 →
            (driver_pass K sys fuel w sockfd).ret = some (Jump.cleanup 1) ∧
            (driver_loop K sys sockfd (fuel + 1) w).ret = some 1))) := by
  have hruns : ∀ j, rp.ret = some j → ∃ F k v, fuel = F + 1 ∧ k ≤ F ∧
      (∀ i < k, (read_run K sys sockfd F i q.2).ret = some CRUSTLS_DEMO_OK) ∧
      (read_run K sys sockfd F k q.2).ret = some v ∧ v ≠ CRUSTLS_DEMO_OK ∧
      j = (if v = CRUSTLS_DEMO_AGAIN then Jump.fallthrough
        else if v = CRUSTLS_DEMO_CLOSE_NOTIFY then Jump.cleanup 0 else Jump.cleanup 1) ∧
      rp.tr = read_traces K sys sockfd F (k + 1) q.2 ∧
      rp.w = (read_run K sys sockfd F k q.2).w ∧
      (v = CRUSTLS_DEMO_AGAIN →
        (sys.read (read_start K sys sockfd F k q.2) sockfd 2048).1.1 < 0 ∧
        (sys.read (read_start K sys sockfd F k q.2) sockfd 2048).1.2.1 = true ∧
        (read_run K sys sockfd F k q.2).tr =
          [Event.read sockfd 2048 (sys.read (read_start K sys sockfd F k q.2) sockfd 2048).1.1]) := by
    intro j hj
    cases fuel with
    | zero => rw [← hrp] at hj; simp [read_phase] at hj
    | succ F =>
      rw [← hrp] at hj
      obtain ⟨k, v, hk, hall, hlast, hne, hjv, htr, hw⟩ := read_phase_runs K sys sockfd F q.2 j hj
      rw [hrp] at htr hw
      exact ⟨F, k, v, rfl, hk, hall, hlast, hne, hjv, htr, hw,
        fun hv => read_run_again K sys sockfd F k q.2 (by rw [hlast, hv])⟩
  refine ⟨hruns, ?_⟩
  have hev := read_phase_events K sys sockfd fuel q.2
  rw [hrp] at hev
  have hpass : driver_pass K sys fuel w sockfd =
      match rp.ret with
      | none => ⟨none, rp.w, Event.select (sockfd + 1) true true s.1.1 ::
          Event.wants_read true :: rp.tr⟩
      | some (Jump.cleanup ret) => ⟨some (Jump.cleanup ret), rp.w,
          Event.select (sockfd + 1) true true s.1.1 :: Event.wants_read true :: rp.tr⟩
      | some Jump.fallthrough =>
        if q2.1 = true then
          ⟨(write_phase K sys q2.2 sockfd).ret, (write_phase K sys q2.2 sockfd).w,
            Event.select (sockfd + 1) true true s.1.1 :: Event.wants_read true ::
              (rp.tr ++ Event.wants_write q2.1 :: (write_phase K sys q2.2 sockfd).tr)⟩
        else ⟨some Jump.fallthrough, q2.2, Event.select (sockfd + 1) true true s.1.1 ::
          Event.wants_read true :: (rp.tr ++ [Event.wants_write q2.1])⟩ := by
    simp only [driver_pass, hs, hsel, ↓reduceIte, hq, hwant, hreadable, hwritable,
      Bool.and_self, Bool.and_true, hrp, hq2]
  have hwp : write_phase K sys q2.2 sockfd =
      if t.1.1 ≠ K.RUSTLS_RESULT_OK then ⟨some (Jump.cleanup 1), t.2,
        [Event.write_tls 2048 t.1.1 t.1.2.1]⟩
      else if t.1.2.1 = 0 then ⟨some (Jump.cleanup 1), t.2, [Event.write_tls 2048 t.1.1 t.1.2.1]⟩
      else
        match (write_all sys t.2 sockfd (store (bzero 2048) t.1.2.2) (int_of_size_t t.1.2.1)).ret
        with
        | none => ⟨none,
            (write_all sys t.2 sockfd (store (bzero 2048) t.1.2.2) (int_of_size_t t.1.2.1)).w,
            Event.write_tls 2048 t.1.1 t.1.2.1 ::
            (write_all sys t.2 sockfd (store (bzero 2048) t.1.2.2) (int_of_size_t t.1.2.1)).tr⟩
        | some res =>
          if res ≠ 0 then ⟨some (Jump.cleanup 1),
            (write_all sys t.2 sockfd (store (bzero 2048) t.1.2.2) (int_of_size_t t.1.2.1)).w,
            Event.write_tls 2048 t.1.1 t.1.2.1 ::
            (write_all sys t.2 sockfd (store (bzero 2048) t.1.2.2) (int_of_size_t t.1.2.1)).tr⟩
          else ⟨some Jump.fallthrough,
            (write_all sys t.2 sockfd (store (bzero 2048) t.1.2.2) (int_of_size_t t.1.2.1)).w,
            Event.write_tls 2048 t.1.1 t.1.2.1 ::
            (write_all sys t.2 sockfd (store (bzero 2048) t.1.2.2) (int_of_size_t t.1.2.1)).tr⟩
      := by
    simp only [write_phase, ht]
  generalize write_all sys t.2 sockfd (store (bzero 2048) t.1.2.2) (int_of_size_t t.1.2.1) = wa
    at hwp ⊢
  rcases hr : rp.ret with _ | j
  · rw [hr] at hpass
    refine ⟨[], by rw [hpass]; simp, hev, fun _ => ⟨rfl, by rw [hpass]⟩, fun h => ?_⟩
    exact absurd h (by simp)
  cases j with
  | cleanup ret =>
    rw [hr] at hpass
    refine ⟨[], by rw [hpass]; simp, hev, fun _ => ⟨rfl, by rw [hpass]⟩, fun h => ?_⟩
    exact absurd h (by simp)
  | fallthrough =>
    rw [hr] at hpass
    simp only [] at hpass
    by_cases hw : q2.1 = true
    swap
    · have hw' : q2.1 = false := by simpa using hw
      simp only [hw', Bool.false_eq_true, ↓reduceIte] at hpass
      refine ⟨[Event.wants_write false], by rw [hpass], hev, fun h => absurd rfl h, fun _ => ?_⟩
      exact ⟨fun _ => ⟨rfl, by rw [hpass]⟩, fun h => absurd h hw⟩
    simp only [hw, ↓reduceIte] at hpass
    refine ⟨Event.wants_write true :: (write_phase K sys q2.2 sockfd).tr, by rw [hpass], hev,
      fun h => absurd rfl h, fun _ => ⟨fun h => ?_, fun _ => ⟨?_, fun hok hzero => ?_⟩⟩⟩
    · rw [hw] at h; exact absurd h (by simp)
    · by_cases h1 : t.1.1 = K.RUSTLS_RESULT_OK
      swap
      · simp only [ne_eq, h1, not_false_eq_true, ↓reduceIte] at hwp
        exact ⟨[], by rw [hwp], Or.inl rfl, fun h => absurd h.1 h1⟩
      by_cases h2 : t.1.2.1 = 0
      · simp only [ne_eq, h1, h2, not_true_eq_false, ↓reduceIte] at hwp
        exact ⟨[], by rw [hwp]; simp [h1, h2], Or.inl rfl, fun h => absurd h2 h.2⟩
      simp only [ne_eq, h1, h2, not_true_eq_false, ↓reduceIte] at hwp
      refine ⟨wa.tr, ?_, Or.inr rfl, fun _ => rfl⟩
      rw [hwp]
      rcases hwr : wa.ret with _ | res
      · simp [h1]
      · simp only []
        split_ifs <;> simp [h1]
    · have hwp2 : write_phase K sys q2.2 sockfd =
          ⟨some (Jump.cleanup 1), t.2, [Event.write_tls 2048 t.1.1 t.1.2.1]⟩ := by
        rw [hwp]
        simp [hok, hzero]
      have hret : (driver_pass K sys fuel w sockfd).ret = some (Jump.cleanup 1) := by
        rw [hpass, hwp2]
      refine ⟨hret, ?_⟩
      simp only [driver_loop]
      generalize driver_pass K sys fuel w sockfd = p at hret
      rw [hret]

set_option maxRecDepth 4000 in
/-- C9, at a pass in which the socket is ready both ways and the session
wants both: one `do_read` feeds two bytes, the next one reports would-block,
and only then is the session asked whether it wants to write. -/
theorem read_phase_runs_before_write_phase_witness :
    (scripted.select both_ready (3 + 1)).1.1 ≠ -1 ∧
    (∃ rest, (driver_pass codes scripted 2 both_ready 3).tr =
      Event.select (3 + 1) true true (scripted.select both_ready (3 + 1)).1.1 ::
        Event.wants_read true ::
        ((read_phase codes scripted 3 2
          (scripted.wants_read (scripted.select both_ready (3 + 1)).2).2).tr ++ rest)) ∧
    (driver_pass codes scripted 2 both_ready 3).tr =
      [Event.select 4 true true 1, Event.wants_read true, Event.read 3 2048 2,
        Event.read_tls [7, 8] 0 2, Event.process_new_packets 0, Event.session_read 2048 0 0,
        Event.read 3 2048 (-1), Event.wants_write true, Event.write_tls 2048 0 3,
        Event.write 3 [1, 2, 3] 3] := by
  have h1 : (scripted.select both_ready (3 + 1)).1.1 ≠ -1 := by decide
  obtain ⟨rest, h, _⟩ := (read_phase_runs_before_write_phase codes scripted 2 both_ready 3
    _ _ _ _ _ rfl rfl rfl rfl rfl h1 (by decide) (by decide) (by decide)).2
  exact ⟨h1, ⟨rest, h⟩, by decide⟩

set_option maxRecDepth 4000 in
/-- C3 (counterexample): a session that wants neither to read nor to write
does not end the exchange.  After such a loop head `select` is called again,
with the socket in both sets, and when `select` fails on the third pass the
function returns 1. -/
theorem idle_session_is_not_success :
    (send_request_and_read_response codes scripted 5 idle 3 [104] [47]).ret = some 1 ∧
    (send_request_and_read_response codes scripted 5 idle 3 [104] [47]).tr.tail =
      [Event.select 4 true true 1, Event.wants_read false, Event.wants_write false,
       Event.select 4 true true 1, Event.wants_read false, Event.wants_write false,
       Event.select 4 true true (-1), Event.close 3] := by
  decide

/-- A pass of the driver loop that jumps to `cleanup` does so because `select`
failed, or with the outcome of the read phase it entered, or with the outcome
of the write phase it entered. -/
theorem driver_pass_exits {σ : Type} (K : crustls_h) (sys : Sys σ) (fuel : Nat) (w : σ)
    (sockfd : Int) (r : Int)
    (h : (driver_pass K sys fuel w sockfd).ret = some (Jump.cleanup r)) :
    ((sys.select w (sockfd + 1)).1.1 = -1 ∧ r = 1) ∨
    ((sys.select w (sockfd + 1)).1.1 ≠ -1 ∧
      (sys.wants_read (sys.select w (sockfd + 1)).2).1 = true ∧
      (sys.select w (sockfd + 1)).1.2.1 = true ∧
      (read_phase K sys sockfd fuel (sys.wants_read (sys.select w (sockfd + 1)).2).2).ret
        = some (Jump.cleanup r)) ∨
    ((sys.select w (sockfd + 1)).1.1 ≠ -1 ∧ (sys.select w (sockfd + 1)).1.2.2 = true ∧ r = 1 ∧
      ∃ w', (sys.wants_write w').1 = true ∧
        (write_phase K sys (sys.wants_write w').2 sockfd).ret = some (Jump.cleanup r)) := by
  simp only [driver_pass] at h
  generalize sys.select w (sockfd + 1) = s at h ⊢
  by_cases h1 : s.1.1 = -1
  · simp only [h1, ↓reduceIte, Option.some.injEq, Jump.cleanup.injEq] at h
    exact Or.inl ⟨h1, h.symm⟩
  simp only [h1, ↓reduceIte] at h
  generalize sys.wants_read s.2 = q at h ⊢
  by_cases hq : (q.1 && s.1.2.1) = true
  · simp only [hq, ↓reduceIte] at h
    simp only [Bool.and_eq_true] at hq
    generalize read_phase K sys sockfd fuel q.2 = rp at h ⊢
    rcases hr : rp.ret with _ | j
    · rw [hr] at h; simp at h
    cases j with
    | cleanup ret =>
      rw [hr] at h
      simp only [Option.some.injEq, Jump.cleanup.injEq] at h
      exact Or.inr (Or.inl ⟨h1, hq.1, hq.2, by rw [h]⟩)
    | fallthrough =>
      rw [hr] at h
      simp only [] at h
      by_cases hq2 : ((sys.wants_write rp.w).1 && s.1.2.2) = true
      · simp only [hq2, ↓reduceIte] at h
        simp only [Bool.and_eq_true] at hq2
        have hr1 : r = 1 := by
          rcases write_phase_ret K sys (sys.wants_write rp.w).2 sockfd with h' | h' | h'
          · rw [h'] at h; simp at h
          · rw [h'] at h; simp at h
          · rw [h'] at h; simp at h; exact h.symm
        exact Or.inr (Or.inr ⟨h1, hq2.2, hr1, rp.w, hq2.1, h⟩)
      · simp [hq2] at h
  · simp only [hq, Bool.false_eq_true, ↓reduceIte] at h
    by_cases hq2 : ((sys.wants_write q.2).1 && s.1.2.2) = true
    · simp only [hq2, ↓reduceIte] at h
      simp only [Bool.and_eq_true] at hq2
      have hr1 : r = 1 := by
        rcases write_phase_ret K sys (sys.wants_write q.2).2 sockfd with h' | h' | h'
        · rw [h'] at h; simp at h
        · rw [h'] at h; simp at h
        · rw [h'] at h; simp at h; exact h.symm
      exact Or.inr (Or.inr ⟨h1, hq2.2, hr1, q.2, hq2.1, h⟩)
    · simp [hq2] at h

/-- A pass of the driver loop in which `select` succeeds and neither phase is
entered makes three calls and falls through. -/
theorem driver_pass_no_phase {σ : Type} (K : crustls_h) (sys : Sys σ) (fuel : Nat) (w : σ)
    (sockfd : Int)
    (hsel : (sys.select w (sockfd + 1)).1.1 ≠ -1)
    (hrd : ((sys.wants_read (sys.select w (sockfd + 1)).2).1 &&
      (sys.select w (sockfd + 1)).1.2.1) = false)
    (hwr : ((sys.wants_write (sys.wants_read (sys.select w (sockfd + 1)).2).2).1 &&
      (sys.select w (sockfd + 1)).1.2.2) = false) :
    driver_pass K sys fuel w sockfd =
      ⟨some Jump.fallthrough, (sys.wants_write (sys.wants_read (sys.select w (sockfd + 1)).2).2).2,
        [Event.select (sockfd + 1) true true (sys.select w (sockfd + 1)).1.1,
          Event.wants_read (sys.wants_read (sys.select w (sockfd + 1)).2).1,
          Event.wants_write (sys.wants_write (sys.wants_read (sys.select w (sockfd + 1)).2).2).1]⟩
    := by
  simp [driver_pass, hsel, hrd, hwr]

/-- C3 (amended): (1) every `select` of the exchange has the socket in both
sets, whatever the session reports; (2) every pass of the driver loop begins
with `select`, so the session is queried only after it; (3) a pass in which
`select` succeeds and no phase is entered, in particular one in which the
session wants neither to read nor to write, makes no other call than the two
queries and falls through: the loop goes on with the next pass, whose first
call is `select` again, and returns what the passes from there on return;
(4) the loop returns a value only when a pass jumps to `cleanup` with it;
(5) a pass jumps to `cleanup` only because `select` failed or with the outcome
of a read phase or of a write phase that it entered. -/
theorem idle_pass_waits_again {σ : Type} (K : crustls_h) (sys : Sys σ) (sockfd : Int)
    (hostname path : List Byte) :
    (∀ fuel w, ∀ e ∈ (send_request_and_read_response K sys fuel w sockfd hostname path).tr,
      ∀ nfds a b ret, e = Event.select nfds a b ret → a = true ∧ b = true) ∧
    (∀ fuel w, ∃ rest, (driver_pass K sys fuel w sockfd).tr =
      Event.select (sockfd + 1) true true (sys.select w (sockfd + 1)).1.1 :: rest) ∧
    (∀ fuel w, (sys.select w (sockfd + 1)).1.1 ≠ -1 →
      ((sys.wants_read (sys.select w (sockfd + 1)).2).1 &&
        (sys.select w (sockfd + 1)).1.2.1) = false →
      ((sys.wants_write (sys.wants_read (sys.select w (sockfd + 1)).2).2).1 &&
        (sys.select w (sockfd + 1)).1.2.2) = false →
      (driver_pass K sys fuel w sockfd).ret = some Jump.fallthrough ∧
      (driver_pass K sys fuel w sockfd).tr =
        [Event.select (sockfd + 1) true true (sys.select w (sockfd + 1)).1.1,
          Event.wants_read (sys.wants_read (sys.select w (sockfd + 1)).2).1,
          Event.wants_write
            (sys.wants_write (sys.wants_read (sys.select w (sockfd + 1)).2).2).1] ∧
      (driver_loop K sys sockfd (fuel + 1) w).ret =
        (driver_loop K sys sockfd fuel
          (sys.wants_write (sys.wants_read (sys.select w (sockfd + 1)).2).2).2).ret ∧
      (driver_loop K sys sockfd (fuel + 1) w).tr =
        [Event.select (sockfd + 1) true true (sys.select w (sockfd + 1)).1.1,
          Event.wants_read (sys.wants_read (sys.select w (sockfd + 1)).2).1,
          Event.wants_write
            (sys.wants_write (sys.wants_read (sys.select w (sockfd + 1)).2).2).1] ++
        (driver_loop K sys sockfd fuel
          (sys.wants_write (sys.wants_read (sys.select w (sockfd + 1)).2).2).2).tr ∧
      ∃ rest, (driver_loop K sys sockfd (fuel + 2) w).tr =
        Event.select (sockfd + 1) true true (sys.select w (sockfd + 1)).1.1 ::
          Event.wants_read (sys.wants_read (sys.select w (sockfd + 1)).2).1 ::
          Event.wants_write
            (sys.wants_write (sys.wants_read (sys.select w (sockfd + 1)).2).2).1 ::
          Event.select (sockfd + 1) true true
            (sys.select (sys.wants_write (sys.wants_read (sys.select w (sockfd + 1)).2).2).2
              (sockfd + 1)).1.1 :: rest) ∧
    (∀ w, (driver_loop K sys sockfd 0 w).ret = none) ∧
    (∀ fuel w r, (driver_loop K sys sockfd (fuel + 1) w).ret = some r ↔
      (driver_pass K sys fuel w sockfd).ret = some (Jump.cleanup r) ∨
      ((driver_pass K sys fuel w sockfd).ret = some Jump.fallthrough ∧
        (driver_loop K sys sockfd fuel (driver_pass K sys fuel w sockfd).w).ret = some r)) ∧
    (∀ fuel w r, (driver_pass K sys fuel w sockfd).ret = some (Jump.cleanup r) →
      ((sys.select w (sockfd + 1)).1.1 = -1 ∧ r = 1) ∨
      ((sys.select w (sockfd + 1)).1.1 ≠ -1 ∧
        (sys.wants_read (sys.select w (sockfd + 1)).2).1 = true ∧
        (sys.select w (sockfd + 1)).1.2.1 = true ∧
        (read_phase K sys sockfd fuel (sys.wants_read (sys.select w (sockfd + 1)).2).2).ret
          = some (Jump.cleanup r)) ∨
      ((sys.select w (sockfd + 1)).1.1 ≠ -1 ∧ (sys.select w (sockfd + 1)).1.2.2 = true ∧
        r = 1 ∧
        ∃ w', (sys.wants_write w').1 = true ∧
          (write_phase K sys (sys.wants_write w').2 sockfd).ret = some (Jump.cleanup r))) := by
  refine ⟨?_, fun fuel w => driver_pass_head K sys fuel w sockfd, ?_, fun w => rfl, ?_,
    fun fuel w r h => driver_pass_exits K sys fuel w sockfd r h⟩
  · intro fuel w e he nfds a b ret heq
    obtain ⟨rest, htr, hrest, _⟩ := send_request_head K sys fuel w sockfd hostname path
    rw [htr, heq] at he
    simp only [List.mem_cons] at he
    rcases he with he | he
    · exact absurd he (by simp)
    · rcases hrest _ he with h | h
      · simpa [Event.is_exchange] using h
      · exact absurd h (by simp)
  · intro fuel w hsel hrd hwr
    have hpass := driver_pass_no_phase K sys fuel w sockfd hsel hrd hwr
    have hpass2 := driver_pass_no_phase K sys (fuel + 1) w sockfd hsel hrd hwr
    refine ⟨by rw [hpass], by rw [hpass], by rw [driver_loop, hpass],
      by rw [driver_loop, hpass], ?_⟩
    obtain ⟨rest, hrest⟩ := driver_loop_head K sys fuel
      (sys.wants_write (sys.wants_read (sys.select w (sockfd + 1)).2).2).2 sockfd
    refine ⟨rest, ?_⟩
    rw [driver_loop, hpass2]
    simp [hrest]
  · intro fuel w r
    simp only [driver_loop]
    generalize driver_loop K sys sockfd fuel (driver_pass K sys fuel w sockfd).w = k
    generalize driver_pass K sys fuel w sockfd = p
    rcases hr : p.ret with _ | j
    · simp
    cases j with
    | cleanup ret => simp
    | fallthrough => simp

set_option maxRecDepth 4000 in
/-- C3 (amended), at the idle exchange: the first pass enters no phase, so the
loop returns what the passes after it return, which is 1 when `select` fails
on the third pass. -/
theorem idle_pass_waits_again_witness :
    (scripted.select idle (3 + 1)).1.1 ≠ -1 ∧
    (driver_loop codes scripted 3 3 idle).ret = some 1 := by
  have h1 : (scripted.select idle (3 + 1)).1.1 ≠ -1 := by decide
  have h := ((idle_pass_waits_again codes scripted 3 [104] [47]).2.2.1 2 idle h1
    (by decide) (by decide)).2.2.1
  exact ⟨h1, h.trans (by decide)⟩

end Crustls
